import Mathlib

/-!
Verification of the HRTF subsystem of openal-soft (src/Alc/hrtf.c).

The development shallowly embeds the two binary dataset decoders
(LoadHrtf00 / LoadHrtf01), the grid indexers (CalcEvIndices / CalcAzIndices),
the spherical interpolator (GetLerpedHrtfCoeffs) and the ambisonic
synthesizer (BuildBFormatHrtf).

Conventions:
- byte buffers are modelled as List Nat (one entry per ALubyte);
- machine-integer truncation is written explicitly (% 256 on the ALubyte
  store of azimuth counts in the v0 decoder);
- float arithmetic is idealized over the real numbers;
- C array reads are List.getD with default 0, mirroring the fact that the
  decoders validate indices before the runtime functions use them.
-/

set_option maxRecDepth 40000

open Real

/-! ### Constants from src/Alc/hrtf.c -/

def MIN_IR_SIZE : ℕ := 8
def MAX_IR_SIZE : ℕ := 128
def MOD_IR_SIZE : ℕ := 8
def MIN_EV_COUNT : ℕ := 5
def MAX_EV_COUNT : ℕ := 128
def MIN_AZ_COUNT : ℕ := 1
def MAX_AZ_COUNT : ℕ := 128

/-- Modelled from the spec: the history length is a fixed runtime constant
(declared in hrtf.h, which is not part of the provided sources); the spec
only requires `0 ≤ delay ≤ HISTORY_LENGTH - 1`.  The numeric value chosen
here is not load-bearing for any property proved below. -/
def HRTF_HISTORY_LENGTH : ℕ := 64

/-- Modelled from the spec: fixed sub-sample fractional-bit count used to
encode delays in fixed point (declared in hrtf.h, not in the provided
sources).  The numeric value is not load-bearing for the properties below. -/
def HRTFDELAY_BITS : ℕ := 2

/-- Modelled from the spec: the fixed maximum impulse length of the
ambisonic filter bank (HRIR_LENGTH, declared in hrtf.h, not in the provided
sources).  The numeric value is not load-bearing for the properties below. -/
def HRIR_LENGTH : ℕ := 128

/-- Local constant `maxDelay = HRTF_HISTORY_LENGTH-1` of both decoders. -/
def maxDelay : ℕ := HRTF_HISTORY_LENGTH - 1

/-! ### The Hrtf dataset -/

/-- The decoded Hrtf dataset.  Mirrors `struct Hrtf`: `sampleRate`,
`irSize`, `evCount`, and the four variable-length arrays.  `irCount` is the
decoder's local variable of the same name (the total direction count, which
sizes `coeffs` and `delays`); the C struct does not store it separately, but
every claim about the decode result refers to it. -/
structure Hrtf where
  sampleRate : ℕ
  irSize : ℕ
  irCount : ℕ
  evCount : ℕ
  azCount : List ℕ
  evOffset : List ℕ
  coeffs : List ℤ
  delays : List ℕ
deriving DecidableEq

/-- Decoder outcome kinds, following section 7 of the spec: `truncated` for
a buffer shorter than a field or table requires, `outOfRange` for
irSize/evCount/azCount/delay outside the documented bounds, `invalidOffset`
for non-increasing evOffset or inconsistent irCount.  `oobRead` marks an
actual read past the end of the buffer; the decoders are proved never to
return it. -/
inductive DecodeErr where
  | truncated
  | outOfRange
  | invalidOffset
  | oobRead
deriving DecidableEq

instance {e a : Type} [DecidableEq e] [DecidableEq a] : DecidableEq (Except e a) := fun x y =>
  match x, y with
  | .ok u, .ok v => decidable_of_iff (u = v) (by simp)
  | .error u, .error v => decidable_of_iff (u = v) (by simp)
  | .ok _, .error _ => isFalse (by simp)
  | .error _, .ok _ => isFalse (by simp)

/-! ### Byte readers

The C decoders advance a byte pointer and decrement a remaining-length
counter in lockstep; the model consumes a list, so the remaining list is
exactly the bytes `data .. data+datalen`.  A read from an exhausted list is
the `oobRead` error. -/

/-- Read `n` little-endian unsigned 16-bit values. -/
def readU16s : ℕ → List ℕ → Except DecodeErr (List ℕ × List ℕ)
  | 0, l => .ok ([], l)
  | n+1, b0 :: b1 :: rest =>
    match readU16s n rest with
    | .ok (vs, l) => .ok ((b0 + b1 * 256) :: vs, l)
    | .error e => .error e
  | _+1, [_] => .error .oobRead
  | _+1, [] => .error .oobRead

/-- ALshort reinterpretation of a little-endian 16-bit value. -/
def toI16 (v : ℕ) : ℤ :=
  if v % 65536 < 32768 then (v % 65536 : ℤ) else (v % 65536 : ℤ) - 65536

/-- Read `n` little-endian signed 16-bit coefficients. -/
def readI16s : ℕ → List ℕ → Except DecodeErr (List ℤ × List ℕ)
  | 0, l => .ok ([], l)
  | n+1, b0 :: b1 :: rest =>
    match readI16s n rest with
    | .ok (vs, l) => .ok (toI16 (b0 + b1 * 256) :: vs, l)
    | .error e => .error e
  | _+1, [_] => .error .oobRead
  | _+1, [] => .error .oobRead

/-- Read `n` single bytes. -/
def readBytes : ℕ → List ℕ → Except DecodeErr (List ℕ × List ℕ)
  | 0, l => .ok ([], l)
  | n+1, b :: rest =>
    match readBytes n rest with
    | .ok (vs, l) => .ok (b :: vs, l)
    | .error e => .error e
  | _+1, [] => .error .oobRead

/-- The irSize bounds check shared by both decoders:
`irSize < MIN_IR_SIZE || irSize > MAX_IR_SIZE || (irSize%MOD_IR_SIZE)`. -/
def irSizeOutOfBounds (s : ℕ) : Prop :=
  s < MIN_IR_SIZE ∨ MAX_IR_SIZE < s ∨ s % MOD_IR_SIZE ≠ 0

instance (s : ℕ) : Decidable (irSizeOutOfBounds s) := by
  unfold irSizeOutOfBounds; infer_instance

/-- The evCount bounds check shared by both decoders. -/
def evCountOutOfBounds (e : ℕ) : Prop :=
  e < MIN_EV_COUNT ∨ MAX_EV_COUNT < e

instance (e : ℕ) : Decidable (evCountOutOfBounds e) := by
  unfold evCountOutOfBounds; infer_instance

/-- The v0 decoder's evOffset-table validation loop together with the
derivation of the azimuth counts.  For each ring the offset must strictly
increase; the azimuth count is the difference of consecutive offsets,
truncated by the ALubyte store (`% 256`), and must lie within
[MIN_AZ_COUNT, MAX_AZ_COUNT].  The final ring's count is derived from
`irCount - evOffset[last]` after requiring `irCount > evOffset[last]`. -/
def mkAzCounts00 (irCount : ℕ) : List ℕ → Except DecodeErr (List ℕ)
  | [] => .ok []
  | [last] =>
    if irCount ≤ last then .error .invalidOffset else
    let az := (irCount - last) % 256
    if az < MIN_AZ_COUNT ∨ MAX_AZ_COUNT < az then .error .outOfRange else
    .ok [az]
  | o0 :: o1 :: rest =>
    if o1 ≤ o0 then .error .invalidOffset else
    let az := (o1 - o0) % 256
    if az < MIN_AZ_COUNT ∨ MAX_AZ_COUNT < az then .error .outOfRange else
    match mkAzCounts00 irCount (o1 :: rest) with
    | .ok azs => .ok (az :: azs)
    | .error e => .error e

/-- The v1 decoder's evOffset derivation: `evOffset[0] = 0` and
`evOffset[i] = evOffset[i-1] + azCount[i-1]` (prefix sums).  The ALushort
store cannot truncate: prefix sums of at most 128 rings of at most 128
azimuths stay below 2^16. -/
def mkEvOffsets (az : List ℕ) : List ℕ :=
  (List.range az.length).map (fun i => (az.take i).sum)

/-- The v0 decoder (`LoadHrtf00`), over the bytes following the 8-byte
magic marker.  Fields: u32 sampleRate, u16 irCount, u16 irSize, u8 evCount,
u16 evOffset[evCount], i16 coeffs[irCount*irSize], u8 delays[irCount].
The C code accumulates validation failures in a flag and keeps scanning;
since every failure leads to the same NULL result, the model reports the
first failing check in program order. -/
def LoadHrtf00 (data : List ℕ) : Except DecodeErr Hrtf :=
  if data.length < 9 then .error .truncated else
  match data with
  | b0 :: b1 :: b2 :: b3 :: c0 :: c1 :: s0 :: s1 :: e0 :: rest =>
    let rate := b0 + b1 * 256 + b2 * 65536 + b3 * 16777216
    let irCount := c0 + c1 * 256
    let irSize := s0 + s1 * 256
    let evCount := e0
    if irSizeOutOfBounds irSize ∨ evCountOutOfBounds evCount then
      .error .outOfRange else
    if rest.length < evCount * 2 then .error .truncated else
    match readU16s evCount rest with
    | .error e => .error e
    | .ok (evOffset, rest2) =>
      match mkAzCounts00 irCount evOffset with
      | .error e => .error e
      | .ok azCount =>
        if rest2.length < 2 * irSize * irCount + irCount then
          .error .truncated else
        match readI16s (irCount * irSize) rest2 with
        | .error e => .error e
        | .ok (coeffs, rest3) =>
          match readBytes irCount rest3 with
          | .error e => .error e
          | .ok (delays, _) =>
            if delays.any (fun d => maxDelay < d) then .error .outOfRange else
            .ok ⟨rate, irSize, irCount, evCount, azCount, evOffset, coeffs, delays⟩
  | _ => .error .oobRead

/-- The v1 decoder (`LoadHrtf01`), over the bytes following the 8-byte
magic marker.  Fields: u32 sampleRate, u8 irSize, u8 evCount,
u8 azCount[evCount], i16 coeffs[irCount*irSize], u8 delays[irCount], where
irCount and evOffset are derived by prefix-summing azCount. -/
def LoadHrtf01 (data : List ℕ) : Except DecodeErr Hrtf :=
  if data.length < 6 then .error .truncated else
  match data with
  | b0 :: b1 :: b2 :: b3 :: s :: e :: rest =>
    let rate := b0 + b1 * 256 + b2 * 65536 + b3 * 16777216
    let irSize := s
    let evCount := e
    if irSizeOutOfBounds irSize ∨ evCountOutOfBounds evCount then
      .error .outOfRange else
    if rest.length < evCount then .error .truncated else
    let azCount := rest.take evCount
    let rest2 := rest.drop evCount
    if azCount.any (fun a => a < MIN_AZ_COUNT ∨ MAX_AZ_COUNT < a) then
      .error .outOfRange else
    let evOffset := mkEvOffsets azCount
    let irCount := azCount.sum
    if rest2.length < 2 * irSize * irCount + irCount then .error .truncated else
    match readI16s (irCount * irSize) rest2 with
    | .error e => .error e
    | .ok (coeffs, rest3) =>
      match readBytes irCount rest3 with
      | .error e => .error e
      | .ok (delays, _) =>
        if delays.any (fun d => maxDelay < d) then .error .outOfRange else
        .ok ⟨rate, irSize, irCount, evCount, azCount, evOffset, coeffs, delays⟩
  | _ => .error .oobRead

/-! ### Reader characterizations -/

lemma readU16s_ok (n : ℕ) : ∀ l : List ℕ, 2 * n ≤ l.length →
    readU16s n l =
      .ok ((List.range n).map (fun i => l.getD (2*i) 0 + l.getD (2*i+1) 0 * 256),
           l.drop (2*n)) := by
  induction n with
  | zero => intro l _; simp [readU16s]
  | succ n ih =>
    intro l hl
    match l with
    | [] => simp at hl
    | [b] => simp at hl; omega
    | b0 :: b1 :: rest =>
      have hr : 2 * n ≤ rest.length := by simp at hl; omega
      simp only [readU16s, ih rest hr]
      refine congrArg _ (Prod.ext ?_ ?_)
      · show _ = (List.range (n+1)).map
          (fun i => (b0 :: b1 :: rest).getD (2*i) 0 + (b0 :: b1 :: rest).getD (2*i+1) 0 * 256)
        rw [List.range_succ_eq_map, List.map_cons, List.map_map]
        refine congrArg₂ _ (by simp) (List.map_congr_left ?_)
        intro i _
        have h2 : 2 * Nat.succ i = 2*i + 1 + 1 := by omega
        have h3 : 2 * Nat.succ i + 1 = (2*i + 1) + 1 + 1 := by omega
        simp only [Function.comp_apply, h2, h3, List.getD_cons_succ]
      · show rest.drop (2*n) = (b0 :: b1 :: rest).drop (2*(n+1))
        have h2 : 2 * (n+1) = 2*n + 1 + 1 := by omega
        rw [h2, List.drop_succ_cons, List.drop_succ_cons]

lemma readI16s_ok (n : ℕ) : ∀ l : List ℕ, 2 * n ≤ l.length →
    readI16s n l =
      .ok ((List.range n).map (fun i => toI16 (l.getD (2*i) 0 + l.getD (2*i+1) 0 * 256)),
           l.drop (2*n)) := by
  induction n with
  | zero => intro l _; simp [readI16s]
  | succ n ih =>
    intro l hl
    match l with
    | [] => simp at hl
    | [b] => simp at hl; omega
    | b0 :: b1 :: rest =>
      have hr : 2 * n ≤ rest.length := by simp at hl; omega
      simp only [readI16s, ih rest hr]
      refine congrArg _ (Prod.ext ?_ ?_)
      · show _ = (List.range (n+1)).map
          (fun i => toI16 ((b0 :: b1 :: rest).getD (2*i) 0 + (b0 :: b1 :: rest).getD (2*i+1) 0 * 256))
        rw [List.range_succ_eq_map, List.map_cons, List.map_map]
        refine congrArg₂ _ (by simp) (List.map_congr_left ?_)
        intro i _
        have h2 : 2 * Nat.succ i = 2*i + 1 + 1 := by omega
        have h3 : 2 * Nat.succ i + 1 = (2*i + 1) + 1 + 1 := by omega
        simp only [Function.comp_apply, h2, h3, List.getD_cons_succ]
      · show rest.drop (2*n) = (b0 :: b1 :: rest).drop (2*(n+1))
        have h2 : 2 * (n+1) = 2*n + 1 + 1 := by omega
        rw [h2, List.drop_succ_cons, List.drop_succ_cons]

lemma readBytes_ok (n : ℕ) : ∀ l : List ℕ, n ≤ l.length →
    readBytes n l = .ok (l.take n, l.drop n) := by
  induction n with
  | zero => intro l _; simp [readBytes]
  | succ n ih =>
    intro l hl
    match l with
    | [] => simp at hl
    | b :: rest =>
      have hr : n ≤ rest.length := by simp at hl; omega
      simp [readBytes, ih rest hr]

lemma getD_replicate {α : Type} (a d : α) (m i : ℕ) :
    (List.replicate m a).getD i d = if i < m then a else d := by
  rw [List.getD_eq_getElem?_getD, List.getElem?_replicate]
  split <;> rfl

lemma getD_replicate_self {α : Type} (a : α) (m i : ℕ) :
    (List.replicate m a).getD i a = a := by
  rw [getD_replicate]; split <;> rfl

lemma toI16_zero : toI16 0 = 0 := by decide

lemma readI16s_replicate0 (n m : ℕ) (h : 2 * n ≤ m) :
    readI16s n (List.replicate m 0) =
      .ok (List.replicate n 0, List.replicate (m - 2*n) 0) := by
  rw [readI16s_ok n _ (by simpa using h), List.drop_replicate]
  refine congrArg _ (Prod.ext ?_ rfl)
  show List.map _ _ = _
  rw [List.eq_replicate_iff]
  refine ⟨by simp, ?_⟩
  intro b hb
  simp only [List.mem_map] at hb
  obtain ⟨i, _, hi⟩ := hb
  rw [getD_replicate_self, getD_replicate_self] at hi
  simpa [toI16_zero] using hi.symm

lemma readBytes_replicate0 (n m : ℕ) (h : n ≤ m) :
    readBytes n (List.replicate m 0) =
      .ok (List.replicate n 0, List.replicate (m - n) 0) := by
  rw [readBytes_ok n _ (by simpa using h), List.take_replicate, List.drop_replicate,
    min_eq_left h]

lemma any_maxDelay_replicate0 (n : ℕ) :
    (List.replicate n 0).any (fun d => maxDelay < d) = false := by
  rw [Bool.eq_false_iff]
  intro hc
  rw [List.any_eq_true] at hc
  obtain ⟨x, hx, hpx⟩ := hc
  rw [List.eq_of_mem_replicate hx] at hpx
  simp [maxDelay, HRTF_HISTORY_LENGTH] at hpx

/-- A list of length at least 9 splits into nine heads and a tail. -/
lemma exists_cons9 (l : List ℕ) (h : 9 ≤ l.length) :
    ∃ a0 a1 a2 a3 a4 a5 a6 a7 a8 t,
      l = a0 :: a1 :: a2 :: a3 :: a4 :: a5 :: a6 :: a7 :: a8 :: t := by
  match l with
  | a0 :: a1 :: a2 :: a3 :: a4 :: a5 :: a6 :: a7 :: a8 :: t =>
    exact ⟨a0, a1, a2, a3, a4, a5, a6, a7, a8, t, rfl⟩
  | [] | [_] | [_,_] | [_,_,_] | [_,_,_,_] | [_,_,_,_,_] | [_,_,_,_,_,_]
  | [_,_,_,_,_,_,_] | [_,_,_,_,_,_,_,_] => simp at h

/-- A list of length at least 6 splits into six heads and a tail. -/
lemma exists_cons6 (l : List ℕ) (h : 6 ≤ l.length) :
    ∃ a0 a1 a2 a3 a4 a5 t, l = a0 :: a1 :: a2 :: a3 :: a4 :: a5 :: t := by
  match l with
  | a0 :: a1 :: a2 :: a3 :: a4 :: a5 :: t => exact ⟨a0, a1, a2, a3, a4, a5, t, rfl⟩
  | [] | [_] | [_,_] | [_,_,_] | [_,_,_,_] | [_,_,_,_,_] => simp at h

/-! ### Validation-loop characterizations -/

lemma mkAzCounts00_ne_oob (irC : ℕ) : ∀ l : List ℕ, mkAzCounts00 irC l ≠ .error .oobRead := by
  intro l
  induction l with
  | nil => simp [mkAzCounts00]
  | cons o0 t ih =>
    cases t with
    | nil =>
      simp only [mkAzCounts00]
      split
      · simp
      · split
        · simp
        · simp
    | cons o1 rest =>
      simp only [mkAzCounts00]
      split
      · simp
      · split
        · simp
        · split
          · simp
          · next heq => intro hc; rw [Except.error.injEq] at hc; subst hc; exact ih heq

lemma mkAzCounts00_spec (irC : ℕ) : ∀ l az, mkAzCounts00 irC l = .ok az →
    az.length = l.length ∧
    (∀ i, i + 1 < l.length →
      l.getD i 0 < l.getD (i+1) 0 ∧ az.getD i 0 = (l.getD (i+1) 0 - l.getD i 0) % 256) ∧
    (0 < l.length →
      l.getD (l.length - 1) 0 < irC ∧
      az.getD (l.length - 1) 0 = (irC - l.getD (l.length - 1) 0) % 256) ∧
    (∀ a ∈ az, MIN_AZ_COUNT ≤ a ∧ a ≤ MAX_AZ_COUNT) := by
  intro l
  induction l with
  | nil =>
    intro az h
    simp only [mkAzCounts00, Except.ok.injEq] at h
    subst h
    simp
  | cons o0 t ih =>
    cases t with
    | nil =>
      intro az h
      simp only [mkAzCounts00] at h
      split at h
      · exact absurd h (by simp)
      · split at h
        · exact absurd h (by simp)
        · rename_i hlt hbnd
          rw [Except.ok.injEq] at h
          subst h
          push_neg at hbnd
          refine ⟨rfl, ?_, ?_, ?_⟩
          · intro i hi
            simp at hi
          · intro _
            exact ⟨show o0 < irC by omega, rfl⟩
          · intro a ha
            rw [List.mem_singleton] at ha
            subst ha
            exact hbnd
    | cons o1 rest =>
      intro az h
      simp only [mkAzCounts00] at h
      split at h
      · exact absurd h (by simp)
      · split at h
        · exact absurd h (by simp)
        · split at h
          · rename_i hle hbnd hx azs heq
            rw [Except.ok.injEq] at h
            subst h
            push_neg at hbnd
            obtain ⟨hlen, hmid, hlast, hmem⟩ := ih _ heq
            refine ⟨by simpa using hlen, ?_, ?_, ?_⟩
            · intro i hi
              cases i with
              | zero =>
                simp only [List.getD_cons_zero, List.getD_cons_succ]
                exact ⟨by omega, by trivial⟩
              | succ j =>
                simp only [List.getD_cons_succ]
                exact hmid j (by simpa using hi)
            · intro _
              have hl : (o0 :: o1 :: rest).length - 1 = (o1 :: rest).length - 1 + 1 := by
                simp
              rw [hl]
              simp only [List.getD_cons_succ]
              exact hlast (by simp)
            · intro a ha
              rw [List.mem_cons] at ha
              rcases ha with ha | ha
              · subst ha; exact hbnd
              · exact hmem a ha
          · exact absurd h (by simp)

lemma mkAzCounts00_chain (irC : ℕ) : ∀ l az, mkAzCounts00 irC l = .ok az →
    ∀ e, e < l.length → l.getD e 0 + az.getD e 0 ≤ irC := by
  intro l
  induction l with
  | nil => intro az _ e he; simp at he
  | cons o0 t ih =>
    cases t with
    | nil =>
      intro az h e he
      simp only [mkAzCounts00] at h
      split at h
      · exact absurd h (by simp)
      · split at h
        · exact absurd h (by simp)
        · rename_i hlt hbnd
          rw [Except.ok.injEq] at h
          subst h
          have he0 : e = 0 := by simp at he; omega
          subst he0
          simp only [List.getD_cons_zero]
          have hmod : (irC - o0) % 256 ≤ irC - o0 := Nat.mod_le _ _
          omega
    | cons o1 rest =>
      intro az h e he
      simp only [mkAzCounts00] at h
      split at h
      · exact absurd h (by simp)
      · split at h
        · exact absurd h (by simp)
        · split at h
          · rename_i hle hbnd hx azs heq
            rw [Except.ok.injEq] at h
            subst h
            cases e with
            | zero =>
              simp only [List.getD_cons_zero]
              have h1 := Nat.mod_le (o1 - o0) 256
              have h2 := ih _ heq 0 (by simp)
              simp only [List.getD_cons_zero] at h2
              omega
            | succ j =>
              simp only [List.getD_cons_succ]
              exact ih _ heq j (by simpa using he)
          · exact absurd h (by simp)

/-! ### Decoder inversions -/

lemma LoadHrtf00_ok_inv {data : List ℕ} {h : Hrtf} (hok : LoadHrtf00 data = .ok h) :
    mkAzCounts00 h.irCount h.evOffset = .ok h.azCount ∧
    h.evOffset.length = h.evCount ∧
    h.coeffs.length = h.irCount * h.irSize ∧
    h.delays.length = h.irCount ∧
    ¬ evCountOutOfBounds h.evCount ∧
    ¬ irSizeOutOfBounds h.irSize ∧
    (∀ d ∈ h.delays, d ≤ maxDelay) := by
  by_cases h9 : data.length < 9
  · simp only [LoadHrtf00.eq_def] at hok
    rw [if_pos h9] at hok
    exact absurd hok (by simp)
  · obtain ⟨a0, a1, a2, a3, a4, a5, a6, a7, a8, t, rfl⟩ := exists_cons9 data (by omega)
    simp only [LoadHrtf00.eq_def] at hok
    rw [if_neg h9] at hok
    split at hok
    · exact absurd hok (by simp)
    rename_i hbounds
    split at hok
    · exact absurd hok (by simp)
    rename_i hlen2
    have hread := readU16s_ok a8 t (by omega)
    split at hok
    · rename_i e heq
      rw [hread] at heq
      exact absurd heq (by simp)
    rename_i offs rest2 heq
    rw [hread] at heq
    rw [Except.ok.injEq, Prod.mk.injEq] at heq
    obtain ⟨hoffs, hrest2⟩ := heq
    split at hok
    · exact absurd hok (by simp)
    rename_i hxx azCnt heqAz
    split at hok
    · exact absurd hok (by simp)
    rename_i hreq
    have hlenr2 : rest2.length = t.length - 2 * a8 := by
      rw [← hrest2, List.length_drop]
    have hprod : 2 * ((a4 + a5 * 256) * (a6 + a7 * 256)) ≤ rest2.length := by
      have hx : 2 * (a6 + a7 * 256) * (a4 + a5 * 256)
          = 2 * ((a4 + a5 * 256) * (a6 + a7 * 256)) := by ring
      rw [hx] at hreq
      omega
    have hread2 := readI16s_ok ((a4 + a5 * 256) * (a6 + a7 * 256)) rest2 hprod
    split at hok
    · rename_i e heq2
      rw [hread2] at heq2
      exact absurd heq2 (by simp)
    rename_i cfs rest3 heq2
    rw [hread2] at heq2
    rw [Except.ok.injEq, Prod.mk.injEq] at heq2
    obtain ⟨hcfs, hrest3⟩ := heq2
    have hlenr3 : rest3.length = rest2.length - 2 * ((a4 + a5 * 256) * (a6 + a7 * 256)) := by
      rw [← hrest3, List.length_drop]
    have hdel : a4 + a5 * 256 ≤ rest3.length := by
      have hx : 2 * (a6 + a7 * 256) * (a4 + a5 * 256)
          = 2 * ((a4 + a5 * 256) * (a6 + a7 * 256)) := by ring
      rw [hx] at hreq
      omega
    have hread3 := readBytes_ok (a4 + a5 * 256) rest3 hdel
    split at hok
    · rename_i e heq3
      rw [hread3] at heq3
      exact absurd heq3 (by simp)
    rename_i dls rest4 heq3
    rw [hread3] at heq3
    rw [Except.ok.injEq, Prod.mk.injEq] at heq3
    obtain ⟨hdls, _⟩ := heq3
    split at hok
    · exact absurd hok (by simp)
    rename_i hany
    rw [Except.ok.injEq] at hok
    subst hok
    dsimp only
    refine ⟨heqAz, ?_, ?_, ?_, ?_, ?_, ?_⟩
    · rw [← hoffs]
      simp
    · rw [← hcfs]
      simp
    · rw [← hdls, List.length_take]
      omega
    · rename_i hbb _ _
      intro hc
      exact hbounds (Or.inr hc)
    · intro hc
      exact hbounds (Or.inl hc)
    · intro d hd
      by_contra hgt
      push_neg at hgt
      apply hany
      rw [List.any_eq_true]
      exact ⟨d, hd, by simpa using hgt⟩

lemma LoadHrtf01_ok_inv {data : List ℕ} {h : Hrtf} (hok : LoadHrtf01 data = .ok h) :
    h.evOffset = mkEvOffsets h.azCount ∧
    h.irCount = h.azCount.sum ∧
    h.azCount.length = h.evCount ∧
    h.coeffs.length = h.irCount * h.irSize ∧
    h.delays.length = h.irCount ∧
    ¬ evCountOutOfBounds h.evCount ∧
    ¬ irSizeOutOfBounds h.irSize ∧
    (∀ a ∈ h.azCount, MIN_AZ_COUNT ≤ a ∧ a ≤ MAX_AZ_COUNT) ∧
    (∀ d ∈ h.delays, d ≤ maxDelay) := by
  by_cases h6 : data.length < 6
  · simp only [LoadHrtf01.eq_def] at hok
    rw [if_pos h6] at hok
    exact absurd hok (by simp)
  · obtain ⟨a0, a1, a2, a3, a4, a5, t, rfl⟩ := exists_cons6 data (by omega)
    simp only [LoadHrtf01.eq_def] at hok
    rw [if_neg h6] at hok
    split at hok
    · exact absurd hok (by simp)
    rename_i hbounds
    split at hok
    · exact absurd hok (by simp)
    rename_i hlen2
    split at hok
    · exact absurd hok (by simp)
    rename_i hazbnd
    split at hok
    · exact absurd hok (by simp)
    rename_i hreq
    have hprod : 2 * ((t.take a5).sum * a4) ≤ (t.drop a5).length := by
      have hx : 2 * a4 * (t.take a5).sum = 2 * ((t.take a5).sum * a4) := by ring
      rw [hx] at hreq
      omega
    have hread2 := readI16s_ok ((t.take a5).sum * a4) (t.drop a5) hprod
    split at hok
    · rename_i e heq2
      rw [hread2] at heq2
      exact absurd heq2 (by simp)
    rename_i cfs rest3 heq2
    rw [hread2] at heq2
    rw [Except.ok.injEq, Prod.mk.injEq] at heq2
    obtain ⟨hcfs, hrest3⟩ := heq2
    have hlenr3 : rest3.length = (t.drop a5).length - 2 * ((t.take a5).sum * a4) := by
      rw [← hrest3, List.length_drop]
    have hdel : (t.take a5).sum ≤ rest3.length := by
      have hx : 2 * a4 * (t.take a5).sum = 2 * ((t.take a5).sum * a4) := by ring
      rw [hx] at hreq
      omega
    have hread3 := readBytes_ok ((t.take a5).sum) rest3 hdel
    split at hok
    · rename_i e heq3
      rw [hread3] at heq3
      exact absurd heq3 (by simp)
    rename_i dls rest4 heq3
    rw [hread3] at heq3
    rw [Except.ok.injEq, Prod.mk.injEq] at heq3
    obtain ⟨hdls, _⟩ := heq3
    split at hok
    · exact absurd hok (by simp)
    rename_i hany
    rw [Except.ok.injEq] at hok
    subst hok
    dsimp only
    refine ⟨rfl, rfl, ?_, ?_, ?_, ?_, ?_, ?_, ?_⟩
    · rw [List.length_take]
      omega
    · rw [← hcfs]
      simp
    · rw [← hdls, List.length_take]
      omega
    · intro hc
      exact hbounds (Or.inr hc)
    · intro hc
      exact hbounds (Or.inl hc)
    · intro a ha
      by_contra hcon
      apply hazbnd
      rw [List.any_eq_true]
      refine ⟨a, ha, ?_⟩
      rw [decide_eq_true_iff]
      omega
    · intro d hd
      by_contra hgt
      push_neg at hgt
      apply hany
      rw [List.any_eq_true]
      exact ⟨d, hd, by simpa using hgt⟩

/-! ### No out-of-bounds reads -/

lemma LoadHrtf00_ne_oob (data : List ℕ) : LoadHrtf00 data ≠ .error .oobRead := by
  intro hc
  by_cases h9 : data.length < 9
  · simp only [LoadHrtf00.eq_def] at hc
    rw [if_pos h9] at hc
    exact absurd hc (by simp)
  · obtain ⟨a0, a1, a2, a3, a4, a5, a6, a7, a8, t, rfl⟩ := exists_cons9 data (by omega)
    simp only [LoadHrtf00.eq_def] at hc
    rw [if_neg h9] at hc
    split at hc
    · exact absurd hc (by simp)
    rename_i hbounds
    split at hc
    · exact absurd hc (by simp)
    rename_i hlen2
    have hread := readU16s_ok a8 t (by omega)
    split at hc
    · rename_i e heq
      rw [hread] at heq
      exact absurd heq (by simp)
    rename_i offs rest2 heq
    rw [hread] at heq
    rw [Except.ok.injEq, Prod.mk.injEq] at heq
    obtain ⟨hoffs, hrest2⟩ := heq
    split at hc
    · rename_i e heq2
      rw [Except.error.injEq] at hc
      subst hc
      exact mkAzCounts00_ne_oob _ _ heq2
    rename_i hxx azCnt heqAz
    split at hc
    · exact absurd hc (by simp)
    rename_i hreq
    have hlenr2 : rest2.length = t.length - 2 * a8 := by
      rw [← hrest2, List.length_drop]
    have hprod : 2 * ((a4 + a5 * 256) * (a6 + a7 * 256)) ≤ rest2.length := by
      have hx : 2 * (a6 + a7 * 256) * (a4 + a5 * 256)
          = 2 * ((a4 + a5 * 256) * (a6 + a7 * 256)) := by ring
      rw [hx] at hreq
      omega
    have hread2 := readI16s_ok ((a4 + a5 * 256) * (a6 + a7 * 256)) rest2 hprod
    split at hc
    · rename_i e heq2
      rw [hread2] at heq2
      exact absurd heq2 (by simp)
    rename_i cfs rest3 heq2
    rw [hread2] at heq2
    rw [Except.ok.injEq, Prod.mk.injEq] at heq2
    obtain ⟨hcfs, hrest3⟩ := heq2
    have hlenr3 : rest3.length = rest2.length - 2 * ((a4 + a5 * 256) * (a6 + a7 * 256)) := by
      rw [← hrest3, List.length_drop]
    have hdel : a4 + a5 * 256 ≤ rest3.length := by
      have hx : 2 * (a6 + a7 * 256) * (a4 + a5 * 256)
          = 2 * ((a4 + a5 * 256) * (a6 + a7 * 256)) := by ring
      rw [hx] at hreq
      omega
    have hread3 := readBytes_ok (a4 + a5 * 256) rest3 hdel
    split at hc
    · rename_i e heq3
      rw [hread3] at heq3
      exact absurd heq3 (by simp)
    rename_i dls rest4 heq3
    split at hc
    · exact absurd hc (by simp)
    · exact absurd hc (by simp)

lemma LoadHrtf01_ne_oob (data : List ℕ) : LoadHrtf01 data ≠ .error .oobRead := by
  intro hc
  by_cases h6 : data.length < 6
  · simp only [LoadHrtf01.eq_def] at hc
    rw [if_pos h6] at hc
    exact absurd hc (by simp)
  · obtain ⟨a0, a1, a2, a3, a4, a5, t, rfl⟩ := exists_cons6 data (by omega)
    simp only [LoadHrtf01.eq_def] at hc
    rw [if_neg h6] at hc
    split at hc
    · exact absurd hc (by simp)
    rename_i hbounds
    split at hc
    · exact absurd hc (by simp)
    rename_i hlen2
    split at hc
    · exact absurd hc (by simp)
    rename_i hazbnd
    split at hc
    · exact absurd hc (by simp)
    rename_i hreq
    have hprod : 2 * ((t.take a5).sum * a4) ≤ (t.drop a5).length := by
      have hx : 2 * a4 * (t.take a5).sum = 2 * ((t.take a5).sum * a4) := by ring
      rw [hx] at hreq
      omega
    have hread2 := readI16s_ok ((t.take a5).sum * a4) (t.drop a5) hprod
    split at hc
    · rename_i e heq2
      rw [hread2] at heq2
      exact absurd heq2 (by simp)
    rename_i cfs rest3 heq2
    rw [hread2] at heq2
    rw [Except.ok.injEq, Prod.mk.injEq] at heq2
    obtain ⟨hcfs, hrest3⟩ := heq2
    have hlenr3 : rest3.length = (t.drop a5).length - 2 * ((t.take a5).sum * a4) := by
      rw [← hrest3, List.length_drop]
    have hdel : (t.take a5).sum ≤ rest3.length := by
      have hx : 2 * a4 * (t.take a5).sum = 2 * ((t.take a5).sum * a4) := by ring
      rw [hx] at hreq
      omega
    have hread3 := readBytes_ok ((t.take a5).sum) rest3 hdel
    split at hc
    · rename_i e heq3
      rw [hread3] at heq3
      exact absurd heq3 (by simp)
    rename_i dls rest4 heq3
    split at hc
    · exact absurd hc (by simp)
    · exact absurd hc (by simp)

/-! ### Declared header fields, as functions of the raw buffer -/

/-- v0 declared irCount (u16 at offset 4). -/
def irCount00 (data : List ℕ) : ℕ := data.getD 4 0 + data.getD 5 0 * 256

/-- v0 declared irSize (u16 at offset 6). -/
def irSize00 (data : List ℕ) : ℕ := data.getD 6 0 + data.getD 7 0 * 256

/-- v0 declared evCount (u8 at offset 8). -/
def evCount00 (data : List ℕ) : ℕ := data.getD 8 0

/-- v0 declared evOffset table (u16 little-endian each, after the header). -/
def offsets00 (data : List ℕ) : List ℕ :=
  (List.range (evCount00 data)).map
    (fun i => (data.drop 9).getD (2*i) 0 + (data.drop 9).getD (2*i+1) 0 * 256)

/-- v1 declared irSize (u8 at offset 4). -/
def irSize01 (data : List ℕ) : ℕ := data.getD 4 0

/-- v1 declared evCount (u8 at offset 5). -/
def evCount01 (data : List ℕ) : ℕ := data.getD 5 0

/-- v1 declared azCount table (u8 each, after the header). -/
def azTable01 (data : List ℕ) : List ℕ := (data.drop 6).take (evCount01 data)

/-- v1 derived irCount (sum of the azCount table). -/
def irCount01 (data : List ℕ) : ℕ := (azTable01 data).sum

/-! ### Truncation behaviour -/

lemma LoadHrtf00_trunc_header {data : List ℕ} (h9 : data.length < 9) :
    LoadHrtf00 data = .error .truncated := by
  simp only [LoadHrtf00.eq_def]
  rw [if_pos h9]

lemma LoadHrtf01_trunc_header {data : List ℕ} (h6 : data.length < 6) :
    LoadHrtf01 data = .error .truncated := by
  simp only [LoadHrtf01.eq_def]
  rw [if_pos h6]

lemma LoadHrtf00_trunc_offsets {data : List ℕ} (h9 : 9 ≤ data.length)
    (hs : ¬ irSizeOutOfBounds (irSize00 data))
    (he : ¬ evCountOutOfBounds (evCount00 data))
    (hlen : data.length < 9 + 2 * evCount00 data) :
    LoadHrtf00 data = .error .truncated := by
  obtain ⟨a0, a1, a2, a3, a4, a5, a6, a7, a8, t, rfl⟩ := exists_cons9 data h9
  have hs' : ¬ irSizeOutOfBounds (a6 + a7 * 256) := by
    simpa [irSize00] using hs
  have he' : ¬ evCountOutOfBounds a8 := by
    simpa [evCount00] using he
  simp only [LoadHrtf00.eq_def]
  rw [if_neg (by omega)]
  rw [if_neg (by intro hcon; rcases hcon with hcon | hcon; exact hs' hcon; exact he' hcon)]
  rw [if_pos ?_]
  have hev : evCount00 (a0 :: a1 :: a2 :: a3 :: a4 :: a5 :: a6 :: a7 :: a8 :: t) = a8 := by
    simp [evCount00]
  rw [hev] at hlen
  simp only [List.length_cons] at hlen ⊢
  omega

lemma LoadHrtf01_trunc_aztable {data : List ℕ} (h6 : 6 ≤ data.length)
    (hs : ¬ irSizeOutOfBounds (irSize01 data))
    (he : ¬ evCountOutOfBounds (evCount01 data))
    (hlen : data.length < 6 + evCount01 data) :
    LoadHrtf01 data = .error .truncated := by
  obtain ⟨a0, a1, a2, a3, a4, a5, t, rfl⟩ := exists_cons6 data h6
  have hs' : ¬ irSizeOutOfBounds a4 := by
    simpa [irSize01] using hs
  have he' : ¬ evCountOutOfBounds a5 := by
    simpa [evCount01] using he
  simp only [LoadHrtf01.eq_def]
  rw [if_neg (by omega)]
  rw [if_neg (by intro hcon; rcases hcon with hcon | hcon; exact hs' hcon; exact he' hcon)]
  rw [if_pos ?_]
  have hev : evCount01 (a0 :: a1 :: a2 :: a3 :: a4 :: a5 :: t) = a5 := by
    simp [evCount01]
  rw [hev] at hlen
  simp only [List.length_cons] at hlen ⊢
  omega

lemma LoadHrtf00_trunc_coeffs {data : List ℕ} (h9 : 9 ≤ data.length)
    (hs : ¬ irSizeOutOfBounds (irSize00 data))
    (he : ¬ evCountOutOfBounds (evCount00 data))
    (hofs : 9 + 2 * evCount00 data ≤ data.length)
    {az : List ℕ} (haz : mkAzCounts00 (irCount00 data) (offsets00 data) = .ok az)
    (hlen : data.length <
      9 + 2 * evCount00 data + (2 * irSize00 data * irCount00 data + irCount00 data)) :
    LoadHrtf00 data = .error .truncated := by
  obtain ⟨a0, a1, a2, a3, a4, a5, a6, a7, a8, t, rfl⟩ := exists_cons9 data h9
  have hs' : ¬ irSizeOutOfBounds (a6 + a7 * 256) := by
    simpa [irSize00] using hs
  have he' : ¬ evCountOutOfBounds a8 := by
    simpa [evCount00] using he
  have hev : evCount00 (a0 :: a1 :: a2 :: a3 :: a4 :: a5 :: a6 :: a7 :: a8 :: t) = a8 := by
    simp [evCount00]
  have hic : irCount00 (a0 :: a1 :: a2 :: a3 :: a4 :: a5 :: a6 :: a7 :: a8 :: t)
      = a4 + a5 * 256 := by
    simp [irCount00]
  have his : irSize00 (a0 :: a1 :: a2 :: a3 :: a4 :: a5 :: a6 :: a7 :: a8 :: t)
      = a6 + a7 * 256 := by
    simp [irSize00]
  have hdrop : (a0 :: a1 :: a2 :: a3 :: a4 :: a5 :: a6 :: a7 :: a8 :: t).drop 9 = t := rfl
  rw [hev] at hofs hlen
  rw [hic] at haz hlen
  rw [his] at hlen
  simp only [List.length_cons] at hofs hlen
  simp only [LoadHrtf00.eq_def]
  rw [if_neg (by omega)]
  rw [if_neg (by intro hcon; rcases hcon with hcon | hcon; exact hs' hcon; exact he' hcon)]
  rw [if_neg (by omega)]
  have hread := readU16s_ok a8 t (by omega)
  rw [hread]
  have hoffs : offsets00 (a0 :: a1 :: a2 :: a3 :: a4 :: a5 :: a6 :: a7 :: a8 :: t)
      = (List.range a8).map (fun i => t.getD (2*i) 0 + t.getD (2*i+1) 0 * 256) := by
    simp only [offsets00, hev, hdrop]
  rw [hoffs] at haz
  simp only [haz]
  rw [if_pos ?_]
  rw [List.length_drop]
  omega

lemma LoadHrtf01_trunc_coeffs {data : List ℕ} (h6 : 6 ≤ data.length)
    (hs : ¬ irSizeOutOfBounds (irSize01 data))
    (he : ¬ evCountOutOfBounds (evCount01 data))
    (hofs : 6 + evCount01 data ≤ data.length)
    (haz : ∀ a ∈ azTable01 data, MIN_AZ_COUNT ≤ a ∧ a ≤ MAX_AZ_COUNT)
    (hlen : data.length <
      6 + evCount01 data + (2 * irSize01 data * irCount01 data + irCount01 data)) :
    LoadHrtf01 data = .error .truncated := by
  obtain ⟨a0, a1, a2, a3, a4, a5, t, rfl⟩ := exists_cons6 data h6
  have hs' : ¬ irSizeOutOfBounds a4 := by
    simpa [irSize01] using hs
  have he' : ¬ evCountOutOfBounds a5 := by
    simpa [evCount01] using he
  have hev : evCount01 (a0 :: a1 :: a2 :: a3 :: a4 :: a5 :: t) = a5 := by
    simp [evCount01]
  have his : irSize01 (a0 :: a1 :: a2 :: a3 :: a4 :: a5 :: t) = a4 := by
    simp [irSize01]
  have hdrop : (a0 :: a1 :: a2 :: a3 :: a4 :: a5 :: t).drop 6 = t := rfl
  have htab : azTable01 (a0 :: a1 :: a2 :: a3 :: a4 :: a5 :: t) = t.take a5 := by
    simp only [azTable01, hev, hdrop]
  have hicount : irCount01 (a0 :: a1 :: a2 :: a3 :: a4 :: a5 :: t) = (t.take a5).sum := by
    simp only [irCount01, htab]
  rw [hev] at hofs hlen
  rw [his, hicount] at hlen
  rw [htab] at haz
  simp only [List.length_cons] at hofs hlen
  simp only [LoadHrtf01.eq_def]
  rw [if_neg (by omega)]
  rw [if_neg (by intro hcon; rcases hcon with hcon | hcon; exact hs' hcon; exact he' hcon)]
  rw [if_neg (by omega)]
  rw [if_neg ?_]
  · rw [if_pos ?_]
    rw [List.length_drop]
    omega
  · intro hcon
    rw [List.any_eq_true] at hcon
    obtain ⟨a, ha, hpa⟩ := hcon
    rw [decide_eq_true_iff] at hpa
    have := haz a ha
    omega

/-! ### Prefix-sum offsets (v1) -/

lemma mkEvOffsets_length (az : List ℕ) : (mkEvOffsets az).length = az.length := by
  simp [mkEvOffsets]

lemma mkEvOffsets_getD (az : List ℕ) (i : ℕ) (hi : i < az.length) :
    (mkEvOffsets az).getD i 0 = (az.take i).sum := by
  rw [mkEvOffsets, List.getD_eq_getElem?_getD, List.getElem?_map, List.getElem?_range hi]
  rfl

lemma sum_take_succ_getD (az : List ℕ) (i : ℕ) (hi : i < az.length) :
    (az.take (i+1)).sum = (az.take i).sum + az.getD i 0 := by
  rw [List.sum_take_succ az i hi, List.getD_eq_getElem az 0 hi]

lemma sum_take_le (az : List ℕ) (n : ℕ) : (az.take n).sum ≤ az.sum := by
  conv_rhs => rw [← List.take_append_drop n az]
  rw [List.sum_append]
  omega

/-! ### Concrete buffers -/

/-- A well-formed v1 buffer: evCount 5, azCount all 1, irSize 8, all
coefficients and delays zero. -/
def bufW : List ℕ := [0,0,0,0, 8, 5] ++ [1,1,1,1,1] ++ List.replicate 85 0

/-- The dataset decoded from `bufW`. -/
def hrtfW : Hrtf :=
  ⟨0, 8, 5, 5, [1,1,1,1,1], [0,1,2,3,4], List.replicate 40 0, List.replicate 5 0⟩

lemma decode_bufW : LoadHrtf01 bufW = .ok hrtfW := by rfl

/-- A v0 buffer the decoder accepts whose first elevation offset is 1, not
0: evOffset = [1,2,3,4,5], irCount = 6, irSize 8. -/
def bufB2 : List ℕ :=
  [0,0,0,0, 6,0, 8,0, 5] ++ [1,0, 2,0, 3,0, 4,0, 5,0] ++ List.replicate 102 0

/-- The dataset decoded from `bufB2`. -/
def hrtfB2 : Hrtf :=
  ⟨0, 8, 6, 5, [1,1,1,1,1], [1,2,3,4,5], List.replicate 48 0, List.replicate 6 0⟩

lemma decode_bufB2 : LoadHrtf00 bufB2 = .ok hrtfB2 := by rfl

/-- A v0 buffer exhibiting the ALubyte truncation: irCount = 261 while
evOffset[4] = 4, so the final ring's count 257 is stored as 257 % 256 = 1
and passes the bounds check. -/
def bufB1 : List ℕ :=
  [0,0,0,0, 5,1, 8,0, 5] ++ [0,0, 1,0, 2,0, 3,0, 4,0] ++ List.replicate 4437 0

/-- The dataset decoded from `bufB1`. -/
def hrtfB1 : Hrtf :=
  ⟨0, 8, 261, 5, [1,1,1,1,1], [0,1,2,3,4], List.replicate 2088 0, List.replicate 261 0⟩

lemma decode_bufB1 : LoadHrtf00 bufB1 = .ok hrtfB1 := by
  have hB1c : bufB1
      = 0::0::0::0::5::1::8::0::5::([0,0, 1,0, 2,0, 3,0, 4,0] ++ List.replicate 4437 0) := by
    simp only [bufB1, List.cons_append, List.nil_append]
  rw [hB1c]
  have htlen : ([0,0, 1,0, 2,0, 3,0, 4,0] ++ List.replicate 4437 0).length = 4447 := by
    simp only [List.length_append, List.length_cons, List.length_nil, List.length_replicate]
  simp only [LoadHrtf00.eq_def]
  rw [if_neg (by simp only [List.length_cons, htlen]; omega)]
  rw [if_neg (by decide)]
  rw [if_neg (by rw [htlen]; norm_num)]
  have hread := readU16s_ok 5 ([0,0, 1,0, 2,0, 3,0, 4,0] ++ List.replicate 4437 0)
    (by rw [htlen]; norm_num)
  have hoffs : (List.range 5).map
      (fun i => ([0,0, 1,0, 2,0, 3,0, 4,0] ++ List.replicate 4437 0).getD (2*i) 0 +
        ([0,0, 1,0, 2,0, 3,0, 4,0] ++ List.replicate 4437 0).getD (2*i+1) 0 * 256)
      = [0, 1, 2, 3, 4] := by
    simp only [List.cons_append, List.nil_append]
    rw [show (5:ℕ) = 4 + 1 by rfl, List.range_succ]
    rw [show (4:ℕ) = 3 + 1 by rfl, List.range_succ]
    rw [show (3:ℕ) = 2 + 1 by rfl, List.range_succ]
    rw [show (2:ℕ) = 1 + 1 by rfl, List.range_succ]
    rw [show (1:ℕ) = 0 + 1 by rfl, List.range_succ, List.range_zero]
    simp only [List.nil_append, List.cons_append, List.map_cons, List.map_nil,
      List.getD_cons_succ, List.getD_cons_zero, Nat.mul_zero, Nat.mul_one,
      Nat.zero_add, Nat.add_zero]
  have hdropt : ([0,0, 1,0, 2,0, 3,0, 4,0] ++ List.replicate 4437 0).drop (2*5)
      = List.replicate 4437 0 := by
    simp only [List.cons_append, List.nil_append]
    rfl
  rw [hoffs, hdropt] at hread
  rw [hread]
  dsimp only
  have haz : mkAzCounts00 (5 + 1 * 256) [0, 1, 2, 3, 4] = .ok [1,1,1,1,1] := by decide
  rw [haz]
  dsimp only
  rw [if_neg (by simp only [List.length_replicate]; norm_num)]
  have hprodeq : (5 + 1 * 256) * (8 + 0 * 256) = 2088 := by norm_num
  rw [hprodeq, readI16s_replicate0 2088 4437 (by norm_num)]
  dsimp only
  have hrem : (4437 : ℕ) - 2 * 2088 = 261 := by norm_num
  rw [hrem]
  have hcount : (5 + 1 * 256 : ℕ) = 261 := by norm_num
  rw [hcount, readBytes_replicate0 261 261 (by norm_num)]
  dsimp only
  rw [if_neg (by rw [any_maxDelay_replicate0]; simp)]
  simp only [hrtfB1, Except.ok.injEq, Hrtf.mk.injEq]

/-- A v0 buffer exhibiting the ALubyte truncation between adjacent rings:
evOffset = [0, 257, 258, 259, 260], so ring 0's count 257 is stored as 1 and
passes the bounds check; irCount = 261. -/
def bufB9 : List ℕ :=
  [0,0,0,0, 5,1, 8,0, 5] ++ [0,0, 1,1, 2,1, 3,1, 4,1] ++ List.replicate 4437 0

/-- The dataset decoded from `bufB9`. -/
def hrtfB9 : Hrtf :=
  ⟨0, 8, 261, 5, [1,1,1,1,1], [0,257,258,259,260], List.replicate 2088 0,
   List.replicate 261 0⟩

lemma decode_bufB9 : LoadHrtf00 bufB9 = .ok hrtfB9 := by
  have hB9c : bufB9
      = 0::0::0::0::5::1::8::0::5::([0,0, 1,1, 2,1, 3,1, 4,1] ++ List.replicate 4437 0) := by
    simp only [bufB9, List.cons_append, List.nil_append]
  rw [hB9c]
  have htlen : ([0,0, 1,1, 2,1, 3,1, 4,1] ++ List.replicate 4437 0).length = 4447 := by
    simp only [List.length_append, List.length_cons, List.length_nil, List.length_replicate]
  simp only [LoadHrtf00.eq_def]
  rw [if_neg (by simp only [List.length_cons, htlen]; omega)]
  rw [if_neg (by decide)]
  rw [if_neg (by rw [htlen]; norm_num)]
  have hread := readU16s_ok 5 ([0,0, 1,1, 2,1, 3,1, 4,1] ++ List.replicate 4437 0)
    (by rw [htlen]; norm_num)
  have hoffs : (List.range 5).map
      (fun i => ([0,0, 1,1, 2,1, 3,1, 4,1] ++ List.replicate 4437 0).getD (2*i) 0 +
        ([0,0, 1,1, 2,1, 3,1, 4,1] ++ List.replicate 4437 0).getD (2*i+1) 0 * 256)
      = [0, 257, 258, 259, 260] := by
    simp only [List.cons_append, List.nil_append]
    rw [show (5:ℕ) = 4 + 1 by rfl, List.range_succ]
    rw [show (4:ℕ) = 3 + 1 by rfl, List.range_succ]
    rw [show (3:ℕ) = 2 + 1 by rfl, List.range_succ]
    rw [show (2:ℕ) = 1 + 1 by rfl, List.range_succ]
    rw [show (1:ℕ) = 0 + 1 by rfl, List.range_succ, List.range_zero]
    simp only [List.nil_append, List.cons_append, List.map_cons, List.map_nil,
      List.getD_cons_succ, List.getD_cons_zero, Nat.mul_zero, Nat.mul_one,
      Nat.zero_add, Nat.add_zero]
  have hdropt : ([0,0, 1,1, 2,1, 3,1, 4,1] ++ List.replicate 4437 0).drop (2*5)
      = List.replicate 4437 0 := by
    simp only [List.cons_append, List.nil_append]
    rfl
  rw [hoffs, hdropt] at hread
  rw [hread]
  dsimp only
  have haz : mkAzCounts00 (5 + 1 * 256) [0, 257, 258, 259, 260] = .ok [1,1,1,1,1] := by
    decide
  rw [haz]
  dsimp only
  rw [if_neg (by simp only [List.length_replicate]; norm_num)]
  have hprodeq : (5 + 1 * 256) * (8 + 0 * 256) = 2088 := by norm_num
  rw [hprodeq, readI16s_replicate0 2088 4437 (by norm_num)]
  dsimp only
  have hrem : (4437 : ℕ) - 2 * 2088 = 261 := by norm_num
  rw [hrem]
  have hcount : (5 + 1 * 256 : ℕ) = 261 := by norm_num
  rw [hcount, readBytes_replicate0 261 261 (by norm_num)]
  dsimp only
  rw [if_neg (by rw [any_maxDelay_replicate0]; simp)]
  simp only [hrtfB9, Except.ok.injEq, Hrtf.mk.injEq]

/-- A v1 buffer whose ring 0 has 4 azimuths with distinct sample-0
coefficients at azimuth indices 0 (value 100) and 2 (value 200). -/
def bufC7 : List ℕ :=
  [0,0,0,0, 8, 5] ++ [4,1,1,1,1] ++ [100,0] ++ List.replicate 30 0 ++ [200,0] ++
    List.replicate 102 0

/-- Coefficients decoded from `bufC7`: direction 0 sample 0 is 100,
direction 2 sample 0 is 200, everything else 0. -/
def coeffsC7 : List ℤ := [100] ++ List.replicate 15 0 ++ [200] ++ List.replicate 47 0

/-- The dataset decoded from `bufC7`. -/
def hrtfC7 : Hrtf :=
  ⟨0, 8, 8, 5, [4,1,1,1,1], [0,4,5,6,7], coeffsC7, List.replicate 8 0⟩

lemma decode_bufC7 : LoadHrtf01 bufC7 = .ok hrtfC7 := by rfl

/-! ### Runtime functions (float arithmetic idealized over the reals) -/

/-- Modelled from the spec: `fastf2u`, the truncating float-to-unsigned
conversion from alu.h (not in the provided sources); the spec says
"truncating (floor) conversion".  For negative arguments the C conversion
is undefined behaviour; the model clamps them to 0. -/
noncomputable def fastf2u (x : ℝ) : ℕ := (⌊x⌋).toNat

/-- Modelled from the spec: `lerp(val1, val2, mu) = val1 + (val2-val1)*mu`
from alu.h (not in the provided sources); section 4.3 describes it as the
linear interpolation between the pass-through value and the blended value. -/
def lerp (a b mu : ℝ) : ℝ := a + (b - a) * mu

/-- `PassthruCoeff = 32767.0f * 0.707106781187f`. -/
noncomputable def PassthruCoeff : ℝ := 32767 * 0.707106781187

/-- `CalcEvIndices`: elevation is mapped linearly from [-pi/2, pi/2] to
[0, evcount-1]; the first index truncates, the second clamps to the last
ring, and the blend factor is the fractional remainder.  (The C `evcount-1`
is ALuint arithmetic; it cannot wrap because every decoded dataset has
`evCount >= MIN_EV_COUNT`.) -/
noncomputable def CalcEvIndices (evcount : ℕ) (ev : ℝ) : ℕ × ℕ × ℝ :=
  let x := (π/2 + ev) * (evcount - 1 : ℕ) / π
  (fastf2u x, min (fastf2u x + 1) (evcount - 1), x - (fastf2u x : ℕ))

/-- `CalcAzIndices`: azimuth is mapped linearly with a +2pi bias and
wraps modulo azcount; the blend factor is `az - floorf(az)` of the scaled
value.  (The C `% azcount` is integer division; `azcount = 0` is undefined
behaviour in C and never produced by a validated dataset.) -/
noncomputable def CalcAzIndices (azcount : ℕ) (az : ℝ) : ℕ × ℕ × ℝ :=
  let x := (2*π + az) * azcount / (2*π)
  (fastf2u x % azcount, (fastf2u x % azcount + 1) % azcount, x - (⌊x⌋ : ℤ))

/-- Output of the interpolator: `irSize` left/right coefficient pairs and
one fixed-point delay per ear. -/
structure LerpedHrtf where
  coeffs : List (ℝ × ℝ)
  delays : ℕ × ℕ

/-- The body of `GetLerpedHrtfCoeffs` after the two elevation indices, the
two per-ring azimuth index triples and the elevation blend factor have been
computed.  Mirrors the C code: linear HRIR indices for both ears (the right
ear uses the mirrored index `(azcount - azidx) % azcount`), four bilinear
blend weights, delay interpolation with rounding and the HRTFDELAY_BITS
shift, and per-sample coefficient interpolation against the pass-through
value (sample 0) or zero (samples 1..irSize-1), scaled by gain and by
1/32767. -/
noncomputable def lerpedFrom (h : Hrtf) (evidx0 evidx1 : ℕ) (az0 az1 : ℕ × ℕ × ℝ)
    (muE spread gain : ℝ) : LerpedHrtf :=
  let dirfact : ℝ := 1 - spread / (2*π)
  let azcount0 := h.azCount.getD evidx0 0
  let evoffset0 := h.evOffset.getD evidx0 0
  let azcount1 := h.azCount.getD evidx1 0
  let evoffset1 := h.evOffset.getD evidx1 0
  let lidx0 := evoffset0 + az0.1
  let lidx1 := evoffset0 + az0.2.1
  let lidx2 := evoffset1 + az1.1
  let lidx3 := evoffset1 + az1.2.1
  let ridx0 := evoffset0 + (azcount0 - az0.1) % azcount0
  let ridx1 := evoffset0 + (azcount0 - az0.2.1) % azcount0
  let ridx2 := evoffset1 + (azcount1 - az1.1) % azcount1
  let ridx3 := evoffset1 + (azcount1 - az1.2.1) % azcount1
  let mu0 := az0.2.2
  let mu1 := az1.2.2
  let b0 := (1 - mu0) * (1 - muE)
  let b1 := mu0 * (1 - muE)
  let b2 := (1 - mu1) * muE
  let b3 := mu1 * muE
  let dAt : ℕ → ℝ := fun i => (h.delays.getD i 0 : ℕ)
  let delayL := fastf2u ((dAt lidx0 * b0 + dAt lidx1 * b1 + dAt lidx2 * b2 +
    dAt lidx3 * b3) * dirfact + 1/2) <<< HRTFDELAY_BITS
  let delayR := fastf2u ((dAt ridx0 * b0 + dAt ridx1 * b1 + dAt ridx2 * b2 +
    dAt ridx3 * b3) * dirfact + 1/2) <<< HRTFDELAY_BITS
  let cAt : ℕ → ℝ := fun k => (h.coeffs.getD k 0 : ℤ)
  let blended : ℕ → ℕ → ℕ → ℕ → ℕ → ℝ := fun i0 i1 i2 i3 i =>
    cAt (i0 * h.irSize + i) * b0 + cAt (i1 * h.irSize + i) * b1 +
    cAt (i2 * h.irSize + i) * b2 + cAt (i3 * h.irSize + i) * b3
  let coeffsOut : List (ℝ × ℝ) :=
    if gain > 0.0001 then
      (List.range h.irSize).map (fun i =>
        if i = 0 then
          (lerp PassthruCoeff (blended lidx0 lidx1 lidx2 lidx3 0) dirfact * gain * (1/32767),
           lerp PassthruCoeff (blended ridx0 ridx1 ridx2 ridx3 0) dirfact * gain * (1/32767))
        else
          (lerp 0 (blended lidx0 lidx1 lidx2 lidx3 i) dirfact * gain * (1/32767),
           lerp 0 (blended ridx0 ridx1 ridx2 ridx3 i) dirfact * gain * (1/32767)))
    else List.replicate h.irSize ((0:ℝ), (0:ℝ))
  ⟨coeffsOut, (delayL, delayR)⟩

/-- `GetLerpedHrtfCoeffs`: elevation indexing, then per-ring azimuth
indexing, then the bilinear interpolation body. -/
noncomputable def GetLerpedHrtfCoeffs (h : Hrtf) (elevation azimuth spread gain : ℝ) :
    LerpedHrtf :=
  let ev := CalcEvIndices h.evCount elevation
  lerpedFrom h ev.1 ev.2.1
    (CalcAzIndices (h.azCount.getD ev.1 0) azimuth)
    (CalcAzIndices (h.azCount.getD ev.2.1 0) azimuth)
    ev.2.2 spread gain

/-! ### Ambisonic synthesizer (`BuildBFormatHrtf`) -/

/-- The 8 cube directions (elevation, azimuth), `DEG2RAD` applied to
(+-35, +-45/+-135) as in the C table. -/
noncomputable def CubePoints : List (ℝ × ℝ) :=
  [(35*π/180, -45*π/180), (35*π/180, 45*π/180),
   (35*π/180, -135*π/180), (35*π/180, 135*π/180),
   (-35*π/180, -45*π/180), (-35*π/180, 45*π/180),
   (-35*π/180, -135*π/180), (-35*π/180, 135*π/180)]

/-- Row `c` of the first band of `CubeMatrix` (the dual-band path is
compile-time disabled, NUM_BANDS = 1). -/
noncomputable def CubeMatrix : List (List ℝ) :=
  [[0.25,  0.1443375672,  0.1443375672,  0.1443375672],
   [0.25, -0.1443375672,  0.1443375672,  0.1443375672],
   [0.25,  0.1443375672,  0.1443375672, -0.1443375672],
   [0.25, -0.1443375672,  0.1443375672, -0.1443375672],
   [0.25,  0.1443375672, -0.1443375672,  0.1443375672],
   [0.25, -0.1443375672, -0.1443375672,  0.1443375672],
   [0.25,  0.1443375672, -0.1443375672, -0.1443375672],
   [0.25, -0.1443375672, -0.1443375672, -0.1443375672]]

/-- Cube point `c` (0..7). -/
noncomputable def cubePoint (c : ℕ) : ℝ × ℝ := CubePoints.getD c (0, 0)

/-- Nearest-grid (rounded) left/right HRIR indices for one direction:
`evidx = min(floor((pi/2+ev)*(evCount-1)/pi + 0.5), evCount-1)`, then
`azidx = floor((2pi+az)*azcount/(2pi) + 0.5) % azcount`, and the mirrored
right index. -/
noncomputable def BFIdxPair (h : Hrtf) (p : ℝ × ℝ) : ℕ × ℕ :=
  let evidx := min (fastf2u ((π/2 + p.1) * (h.evCount - 1 : ℕ) / π + 1/2)) (h.evCount - 1)
  let azcount := h.azCount.getD evidx 0
  let evoffset := h.evOffset.getD evidx 0
  let azidx := fastf2u ((2*π + p.2) * azcount / (2*π) + 1/2) % azcount
  (evoffset + azidx, evoffset + (azcount - azidx) % azcount)

/-- Left-ear linear HRIR index for cube direction `c`. -/
noncomputable def BFLeftIdx (h : Hrtf) (c : ℕ) : ℕ := (BFIdxPair h (cubePoint c)).1

/-- Right-ear linear HRIR index for cube direction `c`. -/
noncomputable def BFRightIdx (h : Hrtf) (c : ℕ) : ℕ := (BFIdxPair h (cubePoint c)).2

/-- Minimum of the 16 selected delays (initialized to
HRTF_HISTORY_LENGTH, as in the C code). -/
noncomputable def BFMinDelay (h : Hrtf) : ℕ :=
  (List.range 8).foldl (fun acc c =>
    min acc (min (h.delays.getD (BFLeftIdx h c) 0) (h.delays.getD (BFRightIdx h c) 0)))
    HRTF_HISTORY_LENGTH

/-- Start offset of the left contribution of direction `c`:
`delay = Hrtf->delays[lidx[c]] - min_delay` (ALuint subtraction; it cannot
wrap because min_delay is a minimum over a set containing this delay). -/
noncomputable def BFShiftL (h : Hrtf) (c : ℕ) : ℕ :=
  h.delays.getD (BFLeftIdx h c) 0 - BFMinDelay h

/-- Start offset of the right contribution of direction `c`. -/
noncomputable def BFShiftR (h : Hrtf) (c : ℕ) : ℕ :=
  h.delays.getD (BFRightIdx h c) 0 - BFMinDelay h

/-- The returned effective length: running maximum of
`min(delay + irSize, HRIR_LENGTH)` over all 16 contributions. -/
noncomputable def BFMaxLength (h : Hrtf) : ℕ :=
  (List.range 8).foldl (fun acc c =>
    max (max acc (min (BFShiftL h c + h.irSize) HRIR_LENGTH))
      (min (BFShiftR h c + h.irSize) HRIR_LENGTH)) 0

/-- One accumulated contribution at output sample `j`: the raw coefficient
`fir[j - delay]` (zero beyond irSize, since the temp buffer is zeroed once
and only its first irSize entries are written), normalized by 1/32767 and
weighted by the matrix entry `w`. -/
noncomputable def BFContrib (h : Hrtf) (idx delay : ℕ) (w : ℝ) (j : ℕ) : ℝ :=
  if delay ≤ j ∧ j < HRIR_LENGTH ∧ j - delay < h.irSize then
    (h.coeffs.getD (idx * h.irSize + (j - delay)) 0 : ℤ) / 32767 * w
  else 0

/-- `BuildBFormatHrtf` (single-band path, NumChannels = 4): the
accumulated 4-channel filter bank as a function of channel and sample,
plus the returned effective length. -/
noncomputable def BuildBFormatHrtf (h : Hrtf) : (ℕ → ℕ → ℝ × ℝ) × ℕ :=
  (fun i j =>
    (∑ c ∈ Finset.range 8,
      BFContrib h (BFLeftIdx h c) (BFShiftL h c) ((CubeMatrix.getD c []).getD i 0) j,
     ∑ c ∈ Finset.range 8,
      BFContrib h (BFRightIdx h c) (BFShiftR h c) ((CubeMatrix.getD c []).getD i 0) j),
   BFMaxLength h)

/-! ### Supporting lemmas for the runtime functions -/

lemma getD_map_range {α : Type} (f : ℕ → α) (n i : ℕ) (d : α) :
    ((List.range n).map f).getD i d = if i < n then f i else d := by
  rw [List.getD_eq_getElem?_getD, List.getElem?_map]
  split
  · rename_i hlt
    rw [List.getElem?_range hlt]
    rfl
  · rename_i hge
    rw [List.getElem?_eq_none (by simpa using hge)]
    rfl

lemma fastf2u_le_of_lt (x : ℝ) (m : ℕ) (hx : x < (m : ℝ) + 1) : fastf2u x ≤ m := by
  rw [fastf2u]
  have h1 : ⌊x⌋ < (m : ℤ) + 1 := by
    rw [Int.floor_lt]
    push_cast
    linarith
  omega

lemma fastf2u_eq (x : ℝ) (n : ℕ) (h1 : (n : ℝ) ≤ x) (h2 : x < (n : ℝ) + 1) :
    fastf2u x = n := by
  rw [fastf2u]
  have hfl : ⌊x⌋ = (n : ℤ) := by
    rw [Int.floor_eq_iff]
    push_cast
    exact ⟨h1, h2⟩
  rw [hfl]
  omega

lemma cast_fastf2u (x : ℝ) (hx : 0 ≤ x) : ((fastf2u x : ℕ) : ℝ) = (⌊x⌋ : ℤ) := by
  rw [fastf2u]
  have h0 : (0 : ℤ) ≤ ⌊x⌋ := Int.floor_nonneg.mpr hx
  exact_mod_cast congrArg (Int.cast : ℤ → ℝ) (Int.toNat_of_nonneg h0)

lemma sub_fastf2u_fract (x : ℝ) (hx : 0 ≤ x) :
    x - ((fastf2u x : ℕ) : ℝ) = Int.fract x := by
  rw [cast_fastf2u x hx]
  exact Int.self_sub_floor x

lemma delays_getD_le (h : Hrtf) (hdel : ∀ x ∈ h.delays, x ≤ maxDelay) (i : ℕ) :
    h.delays.getD i 0 ≤ maxDelay := by
  rcases Nat.lt_or_ge i h.delays.length with hlt | hge
  · rw [List.getD_eq_getElem h.delays 0 hlt]
    exact hdel _ (List.getElem_mem hlt)
  · rw [List.getD_eq_default _ _ hge]
    simp [maxDelay, HRTF_HISTORY_LENGTH]

/-- Azimuth periodicity of the grid indexer: adding a full turn to any
azimuth whose biased value is nonnegative gives identical indices and
blend factor. -/
lemma CalcAzIndices_periodic (n : ℕ) (az : ℝ) (haz : 0 ≤ 2*π + az) :
    CalcAzIndices n (az + 2*π) = CalcAzIndices n az := by
  rcases Nat.eq_zero_or_pos n with hn | hn
  · subst hn
    simp [CalcAzIndices]
  · have hxeq : (2*π + (az + 2*π)) * n / (2*π) = (2*π + az) * n / (2*π) + n := by
      field_simp
      ring
    have hx0 : 0 ≤ (2*π + az) * n / (2*π) := by
      apply div_nonneg
      · exact mul_nonneg haz (by positivity)
      · positivity
    have hfl0 : 0 ≤ ⌊(2*π + az) * n / (2*π)⌋ := Int.floor_nonneg.mpr hx0
    simp only [CalcAzIndices, hxeq]
    have hfloor : ⌊(2*π + az) * n / (2*π) + n⌋ = ⌊(2*π + az) * n / (2*π)⌋ + n := by
      rw [Int.floor_add_nat]
    have hfast : fastf2u ((2*π + az) * n / (2*π) + n)
        = fastf2u ((2*π + az) * n / (2*π)) + n := by
      rw [fastf2u, fastf2u, hfloor]
      omega
    rw [hfast, hfloor]
    refine congrArg₂ _ (by rw [Nat.add_mod_right]) (congrArg₂ _ ?_ ?_)
    · rw [Nat.add_mod_right]
    · push_cast
      ring

lemma CalcAzIndices_mu (n : ℕ) (az : ℝ) :
    (CalcAzIndices n az).2.2 = Int.fract ((2*π + az) * n / (2*π)) := rfl

lemma CalcEvIndices_mu_fract (n : ℕ) (el : ℝ) (hel : -(π/2) ≤ el) :
    (CalcEvIndices n el).2.2 = Int.fract ((π/2 + el) * (n - 1 : ℕ) / π) := by
  have hx : 0 ≤ (π/2 + el) * (n - 1 : ℕ) / π := by
    apply div_nonneg
    · apply mul_nonneg (by linarith) (Nat.cast_nonneg _)
    · exact pi_pos.le
  exact sub_fastf2u_fract _ hx

lemma blend_bound (d0 d1 d2 d3 mu0 mu1 muE dirfact : ℝ) (M : ℕ)
    (h0 : 0 ≤ d0) (h0' : d0 ≤ M) (h1 : 0 ≤ d1) (h1' : d1 ≤ M)
    (h2 : 0 ≤ d2) (h2' : d2 ≤ M) (h3 : 0 ≤ d3) (h3' : d3 ≤ M)
    (hm0 : 0 ≤ mu0) (hm0' : mu0 ≤ 1) (hm1 : 0 ≤ mu1) (hm1' : mu1 ≤ 1)
    (hmE : 0 ≤ muE) (hmE' : muE ≤ 1) (hdf : 0 ≤ dirfact) (hdf' : dirfact ≤ 1) :
    fastf2u ((d0 * ((1-mu0)*(1-muE)) + d1 * (mu0*(1-muE)) + d2 * ((1-mu1)*muE) +
      d3 * (mu1*muE)) * dirfact + 1/2) ≤ M := by
  apply fastf2u_le_of_lt
  have hb0 : 0 ≤ (1-mu0)*(1-muE) := mul_nonneg (by linarith) (by linarith)
  have hb1 : 0 ≤ mu0*(1-muE) := mul_nonneg hm0 (by linarith)
  have hb2 : 0 ≤ (1-mu1)*muE := mul_nonneg (by linarith) hmE
  have hb3 : 0 ≤ mu1*muE := mul_nonneg hm1 hmE
  have e0 : d0 * ((1-mu0)*(1-muE)) ≤ (M:ℝ) * ((1-mu0)*(1-muE)) :=
    mul_le_mul_of_nonneg_right h0' hb0
  have e1 : d1 * (mu0*(1-muE)) ≤ (M:ℝ) * (mu0*(1-muE)) :=
    mul_le_mul_of_nonneg_right h1' hb1
  have e2 : d2 * ((1-mu1)*muE) ≤ (M:ℝ) * ((1-mu1)*muE) :=
    mul_le_mul_of_nonneg_right h2' hb2
  have e3 : d3 * (mu1*muE) ≤ (M:ℝ) * (mu1*muE) :=
    mul_le_mul_of_nonneg_right h3' hb3
  have hsum : (M:ℝ) * ((1-mu0)*(1-muE)) + (M:ℝ) * (mu0*(1-muE)) +
      (M:ℝ) * ((1-mu1)*muE) + (M:ℝ) * (mu1*muE) = M := by ring
  have hS : d0 * ((1-mu0)*(1-muE)) + d1 * (mu0*(1-muE)) + d2 * ((1-mu1)*muE) +
      d3 * (mu1*muE) ≤ (M:ℝ) := by linarith
  have hS0 : 0 ≤ d0 * ((1-mu0)*(1-muE)) + d1 * (mu0*(1-muE)) + d2 * ((1-mu1)*muE) +
      d3 * (mu1*muE) := by
    have := mul_nonneg h0 hb0
    have := mul_nonneg h1 hb1
    have := mul_nonneg h2 hb2
    have := mul_nonneg h3 hb3
    linarith
  have hdm : (d0 * ((1-mu0)*(1-muE)) + d1 * (mu0*(1-muE)) + d2 * ((1-mu1)*muE) +
      d3 * (mu1*muE)) * dirfact ≤ (M:ℝ) := le_trans (mul_le_of_le_one_right hS0 hdf') hS
  linarith

lemma lerpedFrom_coeffs_zero (h : Hrtf) (e0 e1 : ℕ) (az0 az1 : ℕ × ℕ × ℝ)
    (muE spread gain : ℝ) (hg : ¬ (gain > 0.0001)) :
    (lerpedFrom h e0 e1 az0 az1 muE spread gain).coeffs
      = List.replicate h.irSize ((0:ℝ), (0:ℝ)) := by
  simp only [lerpedFrom]
  rw [if_neg hg]

lemma lerpedFrom_delay_bound (h : Hrtf) (e0 e1 : ℕ) (az0 az1 : ℕ × ℕ × ℝ)
    (muE spread gain : ℝ)
    (hdel : ∀ x ∈ h.delays, x ≤ maxDelay)
    (hm0 : 0 ≤ az0.2.2) (hm0' : az0.2.2 ≤ 1)
    (hm1 : 0 ≤ az1.2.2) (hm1' : az1.2.2 ≤ 1)
    (hmE : 0 ≤ muE) (hmE' : muE ≤ 1)
    (hsp : 0 ≤ spread) (hsp' : spread ≤ 2*π) :
    ∃ dl dr : ℕ, dl ≤ maxDelay ∧ dr ≤ maxDelay ∧
      (lerpedFrom h e0 e1 az0 az1 muE spread gain).delays
        = (dl <<< HRTFDELAY_BITS, dr <<< HRTFDELAY_BITS) := by
  have hdf : 0 ≤ 1 - spread / (2*π) := by
    have h2 : spread / (2*π) ≤ 1 := by
      rw [div_le_one (by positivity)]
      linarith
    linarith
  have hdf' : 1 - spread / (2*π) ≤ 1 := by
    have h3 : 0 ≤ spread / (2*π) := div_nonneg hsp (by positivity)
    linarith
  refine ⟨_, _, ?_, ?_, rfl⟩
  · exact blend_bound _ _ _ _ _ _ _ _ maxDelay
      (Nat.cast_nonneg _) (Nat.cast_le.mpr (delays_getD_le h hdel _))
      (Nat.cast_nonneg _) (Nat.cast_le.mpr (delays_getD_le h hdel _))
      (Nat.cast_nonneg _) (Nat.cast_le.mpr (delays_getD_le h hdel _))
      (Nat.cast_nonneg _) (Nat.cast_le.mpr (delays_getD_le h hdel _))
      hm0 hm0' hm1 hm1' hmE hmE' hdf hdf'
  · exact blend_bound _ _ _ _ _ _ _ _ maxDelay
      (Nat.cast_nonneg _) (Nat.cast_le.mpr (delays_getD_le h hdel _))
      (Nat.cast_nonneg _) (Nat.cast_le.mpr (delays_getD_le h hdel _))
      (Nat.cast_nonneg _) (Nat.cast_le.mpr (delays_getD_le h hdel _))
      (Nat.cast_nonneg _) (Nat.cast_le.mpr (delays_getD_le h hdel _))
      hm0 hm0' hm1 hm1' hmE hmE' hdf hdf'

lemma toNat_mod_comm (a : ℤ) (ha : 0 ≤ a) (n : ℕ) : a.toNat % n = (a % (n : ℤ)).toNat := by
  obtain ⟨m, rfl⟩ := Int.eq_ofNat_of_zero_le ha
  rw [Int.toNat_natCast, ← Int.natCast_mod, Int.toNat_natCast]

/-- C3 (amended): for azimuth counts in [1,128] and any azimuth with
`2π + az ≥ 0` (so that the float-to-unsigned conversion is defined),
CalcAzIndices returns `⌊(2π+az)·n/2π⌋ mod n` as first index, the successor
modulo n as second index — both within [0, n-1] — and the fractional
remainder, in [0,1), as blend factor. -/
theorem claim_C3_azimuth_indices (n : ℕ) (az : ℝ) (hn : 1 ≤ n) (hn' : n ≤ 128)
    (haz : 0 ≤ 2*π + az) :
    (CalcAzIndices n az).1 = (⌊(2*π + az) * n / (2*π)⌋ % (n : ℤ)).toNat ∧
    (CalcAzIndices n az).2.1 = ((CalcAzIndices n az).1 + 1) % n ∧
    (CalcAzIndices n az).1 < n ∧
    (CalcAzIndices n az).2.1 < n ∧
    (CalcAzIndices n az).2.2 = Int.fract ((2*π + az) * n / (2*π)) ∧
    0 ≤ (CalcAzIndices n az).2.2 ∧ (CalcAzIndices n az).2.2 < 1 := by
  have hx0 : 0 ≤ (2*π + az) * n / (2*π) :=
    div_nonneg (mul_nonneg haz (Nat.cast_nonneg _)) (by positivity)
  have hfl0 : 0 ≤ ⌊(2*π + az) * n / (2*π)⌋ := Int.floor_nonneg.mpr hx0
  refine ⟨?_, rfl, ?_, ?_, CalcAzIndices_mu n az, ?_, ?_⟩
  · show fastf2u ((2*π + az) * n / (2*π)) % n = _
    rw [fastf2u, toNat_mod_comm _ hfl0]
  · exact Nat.mod_lt _ (by omega)
  · exact Nat.mod_lt _ (by omega)
  · rw [CalcAzIndices_mu]
    exact Int.fract_nonneg _
  · rw [CalcAzIndices_mu]
    exact Int.fract_lt_one _

/-- C6: whenever `gain ≤ 0.0001`, the interpolator takes the silent branch
and writes 0 into every one of the irSize left/right coefficient pairs,
regardless of dataset and direction. -/
theorem claim_C6_gain_gate (h : Hrtf) (elevation azimuth spread gain : ℝ)
    (hg : gain ≤ 0.0001) :
    (GetLerpedHrtfCoeffs h elevation azimuth spread gain).coeffs
      = List.replicate h.irSize ((0:ℝ), (0:ℝ)) :=
  lerpedFrom_coeffs_zero _ _ _ _ _ _ _ _ (by simp only [gt_iff_lt, not_lt]; exact hg)

/-- C7 (amended): for azimuths with `2π + az ≥ 0` (so that the
float-to-unsigned conversion is defined on both calls), the interpolator at
azimuth `az` and at `az + 2π` produces identical coefficient arrays and
identical delay pairs. -/
theorem claim_C7_azimuth_periodicity (h : Hrtf) (elevation azimuth spread gain : ℝ)
    (haz : 0 ≤ 2*π + azimuth) :
    GetLerpedHrtfCoeffs h elevation (azimuth + 2*π) spread gain
      = GetLerpedHrtfCoeffs h elevation azimuth spread gain := by
  simp only [GetLerpedHrtfCoeffs]
  rw [CalcAzIndices_periodic _ _ haz, CalcAzIndices_periodic _ _ haz]

/-- C10: for a validated dataset (all stored delays at most
HRTF_HISTORY_LENGTH-1), any direction with elevation at least -π/2 and any
spread in [0, 2π], both output delays are integers `d ≤
HRTF_HISTORY_LENGTH-1` left-shifted by HRTFDELAY_BITS: the four bilinear
weights are nonnegative and sum to 1 and dirfact lies in [0,1], so the
rounded weighted average never exceeds the maximum stored delay. -/
theorem claim_C10_delay_encoding (h : Hrtf) (elevation azimuth spread gain : ℝ)
    (hdel : ∀ x ∈ h.delays, x ≤ maxDelay)
    (hel : -(π/2) ≤ elevation)
    (hsp : 0 ≤ spread) (hsp' : spread ≤ 2*π) :
    ∃ dl dr : ℕ, dl ≤ maxDelay ∧ dr ≤ maxDelay ∧
      (GetLerpedHrtfCoeffs h elevation azimuth spread gain).delays
        = (dl <<< HRTFDELAY_BITS, dr <<< HRTFDELAY_BITS) := by
  have hmuE : 0 ≤ (CalcEvIndices h.evCount elevation).2.2 := by
    rw [CalcEvIndices_mu_fract _ _ hel]
    exact Int.fract_nonneg _
  have hmuE' : (CalcEvIndices h.evCount elevation).2.2 ≤ 1 := by
    rw [CalcEvIndices_mu_fract _ _ hel]
    exact (Int.fract_lt_one _).le
  exact lerpedFrom_delay_bound h
    (CalcEvIndices h.evCount elevation).1 (CalcEvIndices h.evCount elevation).2.1
    (CalcAzIndices (h.azCount.getD (CalcEvIndices h.evCount elevation).1 0) azimuth)
    (CalcAzIndices (h.azCount.getD (CalcEvIndices h.evCount elevation).2.1 0) azimuth)
    (CalcEvIndices h.evCount elevation).2.2 spread gain hdel
    (by rw [CalcAzIndices_mu]; exact Int.fract_nonneg _)
    (by rw [CalcAzIndices_mu]; exact (Int.fract_lt_one _).le)
    (by rw [CalcAzIndices_mu]; exact Int.fract_nonneg _)
    (by rw [CalcAzIndices_mu]; exact (Int.fract_lt_one _).le)
    hmuE hmuE' hsp hsp'

lemma lerpedFrom_coeff0_left (h : Hrtf) (e0 e1 : ℕ) (az0 az1 : ℕ × ℕ × ℝ)
    (muE spread gain : ℝ) (hg : gain > 0.0001) (hsz : 0 < h.irSize) :
    ((lerpedFrom h e0 e1 az0 az1 muE spread gain).coeffs.getD 0 ((0:ℝ),(0:ℝ))).1
      = lerp PassthruCoeff
          (((h.coeffs.getD ((h.evOffset.getD e0 0 + az0.1) * h.irSize + 0) 0 : ℤ) : ℝ)
              * ((1 - az0.2.2) * (1 - muE)) +
           ((h.coeffs.getD ((h.evOffset.getD e0 0 + az0.2.1) * h.irSize + 0) 0 : ℤ) : ℝ)
              * (az0.2.2 * (1 - muE)) +
           ((h.coeffs.getD ((h.evOffset.getD e1 0 + az1.1) * h.irSize + 0) 0 : ℤ) : ℝ)
              * ((1 - az1.2.2) * muE) +
           ((h.coeffs.getD ((h.evOffset.getD e1 0 + az1.2.1) * h.irSize + 0) 0 : ℤ) : ℝ)
              * (az1.2.2 * muE))
          (1 - spread / (2*π)) * gain * (1/32767) := by
  simp only [lerpedFrom]
  rw [if_pos hg, getD_map_range, if_pos hsz, if_pos rfl]

lemma fastf2u_intCast (z : ℤ) : fastf2u ((z : ℤ) : ℝ) = z.toNat := by
  rw [fastf2u, Int.floor_intCast]

lemma calcEv_c7 : CalcEvIndices 5 (-(π/2)) = (0, 1, 0) := by
  have hx : (π/2 + -(π/2)) * ((5 - 1 : ℕ) : ℝ) / π = 0 := by
    have h1 : (π/2 + -(π/2)) = 0 := by ring
    rw [h1, zero_mul, zero_div]
  simp only [CalcEvIndices, hx]
  rw [show (0:ℝ) = ((0:ℤ):ℝ) by norm_num, fastf2u_intCast]
  norm_num

lemma calcAz_c7_r0 : CalcAzIndices 4 (-(3*π)) = (0, 1, 0) := by
  have hx : (2*π + -(3*π)) * ((4:ℕ) : ℝ) / (2*π) = ((-2:ℤ):ℝ) := by
    push_cast
    field_simp
    ring
  simp only [CalcAzIndices, hx]
  rw [fastf2u_intCast, Int.floor_intCast]
  norm_num
  omega

lemma calcAz_c7_r1 : CalcAzIndices 1 (-(3*π)) = (0, 0, 1/2) := by
  have hx : (2*π + -(3*π)) * ((1:ℕ) : ℝ) / (2*π) = -(1/2) := by
    push_cast
    field_simp
    ring
  have hfl : ⌊(-(1/2) : ℝ)⌋ = -1 := by
    rw [Int.floor_eq_iff]
    norm_num
  simp only [CalcAzIndices, hx]
  rw [fastf2u, hfl]
  norm_num
  omega

lemma calcAz_c7_r0' : CalcAzIndices 4 (-(3*π) + 2*π) = (2, 3, 0) := by
  have hx : (2*π + (-(3*π) + 2*π)) * ((4:ℕ) : ℝ) / (2*π) = ((2:ℤ):ℝ) := by
    push_cast
    field_simp
    ring
  simp only [CalcAzIndices, hx]
  rw [fastf2u_intCast, Int.floor_intCast]
  norm_num
  omega

lemma calcAz_c7_r1' : CalcAzIndices 1 (-(3*π) + 2*π) = (0, 0, 1/2) := by
  have hx : (2*π + (-(3*π) + 2*π)) * ((1:ℕ) : ℝ) / (2*π) = 1/2 := by
    push_cast
    field_simp
    ring
  have hfl : ⌊(1/2 : ℝ)⌋ = 0 := by
    rw [Int.floor_eq_iff]
    norm_num
  simp only [CalcAzIndices, hx]
  rw [fastf2u, hfl]
  norm_num

lemma getLerped_c7_A :
    ((GetLerpedHrtfCoeffs hrtfC7 (-(π/2)) (-(3*π)) 0 1).coeffs.getD 0 ((0:ℝ),(0:ℝ))).1
      = 100 * (1/32767) := by
  have hev : hrtfC7.evCount = 5 := rfl
  have haz0 : hrtfC7.azCount.getD 0 0 = 4 := rfl
  have haz1 : hrtfC7.azCount.getD 1 0 = 1 := rfl
  simp only [GetLerpedHrtfCoeffs, hev, calcEv_c7, haz0, haz1]
  rw [calcAz_c7_r0, calcAz_c7_r1]
  rw [lerpedFrom_coeff0_left _ _ _ _ _ _ _ _ (by norm_num) (by decide)]
  have h1 : hrtfC7.coeffs.getD ((hrtfC7.evOffset.getD 0 0 + 0) * hrtfC7.irSize + 0) 0
      = 100 := by decide
  have h2 : hrtfC7.coeffs.getD ((hrtfC7.evOffset.getD 0 0 + 1) * hrtfC7.irSize + 0) 0
      = 0 := by decide
  have h3 : hrtfC7.coeffs.getD ((hrtfC7.evOffset.getD 1 0 + 0) * hrtfC7.irSize + 0) 0
      = 0 := by decide
  rw [h1, h2, h3]
  rw [lerp]
  have hz : (0:ℝ)/(2*π) = 0 := zero_div _
  rw [hz]
  push_cast
  ring

lemma getLerped_c7_B :
    ((GetLerpedHrtfCoeffs hrtfC7 (-(π/2)) (-(3*π) + 2*π) 0 1).coeffs.getD 0 ((0:ℝ),(0:ℝ))).1
      = 200 * (1/32767) := by
  have hev : hrtfC7.evCount = 5 := rfl
  have haz0 : hrtfC7.azCount.getD 0 0 = 4 := rfl
  have haz1 : hrtfC7.azCount.getD 1 0 = 1 := rfl
  simp only [GetLerpedHrtfCoeffs, hev, calcEv_c7, haz0, haz1]
  rw [calcAz_c7_r0', calcAz_c7_r1']
  rw [lerpedFrom_coeff0_left _ _ _ _ _ _ _ _ (by norm_num) (by decide)]
  have h1 : hrtfC7.coeffs.getD ((hrtfC7.evOffset.getD 0 0 + 2) * hrtfC7.irSize + 0) 0
      = 200 := by decide
  have h2 : hrtfC7.coeffs.getD ((hrtfC7.evOffset.getD 0 0 + 3) * hrtfC7.irSize + 0) 0
      = 0 := by decide
  have h3 : hrtfC7.coeffs.getD ((hrtfC7.evOffset.getD 1 0 + 0) * hrtfC7.irSize + 0) 0
      = 0 := by decide
  rw [h1, h2, h3]
  rw [lerp]
  have hz : (0:ℝ)/(2*π) = 0 := zero_div _
  rw [hz]
  push_cast
  ring

/-- C7, the claim as stated is false: for the loaded dataset decoded from
`bufC7`, the interpolator output at azimuth -3π and at -3π + 2π differ (the
scaled azimuth is negative at -3π, so the truncating conversion collapses
it to index 0 instead of wrapping). -/
theorem claim_C7_counterexample :
    ¬ (∀ (data : List ℕ) (hr : Hrtf) (elevation azimuth spread gain : ℝ),
        LoadHrtf01 data = .ok hr →
        GetLerpedHrtfCoeffs hr elevation (azimuth + 2*π) spread gain
          = GetLerpedHrtfCoeffs hr elevation azimuth spread gain) := by
  intro hcl
  have h := hcl bufC7 hrtfC7 (-(π/2)) (-(3*π)) 0 1 decode_bufC7
  have hB := getLerped_c7_B
  rw [h] at hB
  have hAB := getLerped_c7_A.symm.trans hB
  norm_num at hAB

/-- C3, the claim as stated (for every real azimuth) is false: at
azCount 4 and azimuth -3π the scaled value is -2, the truncating
float-to-unsigned conversion collapses it to 0, but
`⌊-2⌋ mod 4 = 2`. -/
theorem claim_C3_counterexample :
    ¬ (∀ (n : ℕ) (az : ℝ), 1 ≤ n → n ≤ 128 →
        (CalcAzIndices n az).1 = (⌊(2*π + az) * n / (2*π)⌋ % (n : ℤ)).toNat) := by
  intro hcl
  have h := hcl 4 (-(3*π)) (by norm_num) (by norm_num)
  have hx : (2*π + -(3*π)) * ((4:ℕ) : ℝ) / (2*π) = ((-2:ℤ):ℝ) := by
    push_cast
    field_simp
    ring
  rw [calcAz_c7_r0, hx, Int.floor_intCast] at h
  exact absurd h (by decide)

lemma foldl_min_const : ∀ (l : List ℕ) (f g : ℕ → ℕ) (v a : ℕ),
    (∀ c ∈ l, f c = v ∧ g c = v) → l ≠ [] →
    l.foldl (fun acc c => min acc (min (f c) (g c))) a = min a v := by
  intro l
  induction l with
  | nil => intro f g v a _ hne; exact absurd rfl hne
  | cons c t ih =>
    intro f g v a hfg _
    rw [List.foldl_cons]
    obtain ⟨hfc, hgc⟩ := hfg c (List.mem_cons_self _ _)
    rw [hfc, hgc]
    cases t with
    | nil =>
      rw [List.foldl_nil]
      omega
    | cons c2 t2 =>
      rw [ih f g v _ (fun x hx => hfg x (List.mem_cons_of_mem _ hx)) (by simp)]
      omega

lemma foldl_maxmax_const : ∀ (l : List ℕ) (f g : ℕ → ℕ) (v a : ℕ),
    (∀ c ∈ l, f c = v ∧ g c = v) → l ≠ [] →
    l.foldl (fun acc c => max (max acc (f c)) (g c)) a = max a v := by
  intro l
  induction l with
  | nil => intro f g v a _ hne; exact absurd rfl hne
  | cons c t ih =>
    intro f g v a hfg _
    rw [List.foldl_cons]
    obtain ⟨hfc, hgc⟩ := hfg c (List.mem_cons_self _ _)
    rw [hfc, hgc]
    cases t with
    | nil =>
      rw [List.foldl_nil]
      omega
    | cons c2 t2 =>
      rw [ih f g v _ (fun x hx => hfg x (List.mem_cons_of_mem _ hx)) (by simp)]
      omega

/-- C8: if the stored delays at all 16 selected grid cells (left and
mirrored right indices of the 8 cube directions) are equal — as in any
loaded dataset with constant delay, whose common value is below
HRTF_HISTORY_LENGTH — then every contribution's start offset is 0, and the
returned effective length equals irSize whenever irSize ≤ HRIR_LENGTH. -/
theorem claim_C8_bformat_alignment (h : Hrtf) (d : ℕ)
    (h16 : ∀ c < 8, h.delays.getD (BFLeftIdx h c) 0 = d ∧
      h.delays.getD (BFRightIdx h c) 0 = d)
    (hd : d < HRTF_HISTORY_LENGTH) (hir : h.irSize ≤ HRIR_LENGTH) :
    (∀ c < 8, BFShiftL h c = 0 ∧ BFShiftR h c = 0) ∧
    (BuildBFormatHrtf h).2 = h.irSize := by
  have hmin : BFMinDelay h = d := by
    rw [BFMinDelay, foldl_min_const (List.range 8)
      (fun c => h.delays.getD (BFLeftIdx h c) 0)
      (fun c => h.delays.getD (BFRightIdx h c) 0) d HRTF_HISTORY_LENGTH
      (fun c hc => h16 c (List.mem_range.mp hc)) (by simp)]
    omega
  have hshift : ∀ c < 8, BFShiftL h c = 0 ∧ BFShiftR h c = 0 := by
    intro c hc
    constructor
    · rw [BFShiftL, (h16 c hc).1, hmin]
      omega
    · rw [BFShiftR, (h16 c hc).2, hmin]
      omega
  refine ⟨hshift, ?_⟩
  show BFMaxLength h = h.irSize
  rw [BFMaxLength, foldl_maxmax_const (List.range 8)
    (fun c => min (BFShiftL h c + h.irSize) HRIR_LENGTH)
    (fun c => min (BFShiftR h c + h.irSize) HRIR_LENGTH) h.irSize 0
    ?_ (by simp)]
  · omega
  · intro c hc
    obtain ⟨hl, hr⟩ := hshift c (List.mem_range.mp hc)
    dsimp only
    rw [hl, hr, Nat.zero_add, min_eq_left hir]
    exact ⟨rfl, rfl⟩

/-- C1: evaluation of the v0 decoder at the failing input.  The buffer is
accepted (decode succeeds), yet `evOffset[evCount-1] + azCount[evCount-1] =
4 + 1 = 5` while `irCount = 261`: the ALubyte store truncates the final
ring's count 257 to 1, defeating the bounds check, so the claimed
round-trip identity `irCount == evOffset[last] + azCount[last]` fails on an
accepted buffer. -/
theorem claim_C1_v0_truncation_bug :
    LoadHrtf00 bufB1 = .ok hrtfB1 ∧
    hrtfB1.evOffset.getD (hrtfB1.evCount - 1) 0 +
      hrtfB1.azCount.getD (hrtfB1.evCount - 1) 0 = 5 ∧
    hrtfB1.irCount = 261 ∧ (5 : ℕ) ≠ 261 :=
  ⟨decode_bufB1, by decide, by decide, by decide⟩

/-- C2, the claim as stated is false: the v0 decoder accepts `bufB2`,
whose first elevation offset is 1. -/
theorem claim_C2_counterexample :
    ¬ (∀ (data : List ℕ) (hr : Hrtf),
        (LoadHrtf00 data = .ok hr ∨ LoadHrtf01 data = .ok hr) →
        hr.evOffset.getD 0 0 = 0) := by
  intro hcl
  have hc := hcl bufB2 hrtfB2 (Or.inl decode_bufB2)
  exact absurd hc (by decide)

/-- C2 (amended): every dataset produced by the v1 decoder satisfies
`evOffset[0] = 0` (the v1 decoder assigns it; the v0 decoder reads
`evOffset[0]` from the buffer and never checks it against 0). -/
theorem claim_C2_v1_evOffset_zero (data : List ℕ) (hr : Hrtf)
    (hok : LoadHrtf01 data = .ok hr) : hr.evOffset.getD 0 0 = 0 := by
  obtain ⟨hoff, _, hazlen, _, _, hev, _, _, _⟩ := LoadHrtf01_ok_inv hok
  have hpos : 0 < hr.azCount.length := by
    rw [evCountOutOfBounds] at hev
    push_neg at hev
    have := hev.1
    rw [MIN_EV_COUNT] at this
    omega
  rw [hoff, mkEvOffsets_getD _ 0 hpos]
  simp

/-- C9, the equality part of the claim as stated is false: the v0 decoder
accepts `bufB9`, where `evOffset[0] + azCount[0] = 0 + 1 = 1` but
`evOffset[1] = 257` (the ALubyte store truncated ring 0's count). -/
theorem claim_C9_counterexample :
    ¬ (∀ (data : List ℕ) (hr : Hrtf),
        (LoadHrtf00 data = .ok hr ∨ LoadHrtf01 data = .ok hr) →
        ∀ i, i + 1 < hr.evCount →
          hr.evOffset.getD i 0 + hr.azCount.getD i 0 = hr.evOffset.getD (i+1) 0) := by
  intro hcl
  have hc := hcl bufB9 hrtfB9 (Or.inl decode_bufB9) 0 (by decide)
  exact absurd hc (by decide)

/-- C9 (amended): every decoded dataset satisfies
`evOffset[i] + azCount[i] ≤ evOffset[i+1]` for adjacent rings (with
equality for v1; the v0 ALubyte truncation can make the stored count
smaller) and `evOffset[evCount-1] + azCount[evCount-1] ≤ irCount`;
consequently every linear direction index `evOffset[e] + a` with
`a < azCount[e]`, and its mirrored right-ear counterpart, is strictly less
than `irCount`, and every coefficient access `idx*irSize + j` with
`j < irSize` falls inside the coefficient table. -/
theorem claim_C9_index_bounds (data : List ℕ) (hr : Hrtf)
    (hok : LoadHrtf00 data = .ok hr ∨ LoadHrtf01 data = .ok hr) :
    (∀ i, i + 1 < hr.evCount →
      hr.evOffset.getD i 0 + hr.azCount.getD i 0 ≤ hr.evOffset.getD (i+1) 0) ∧
    hr.evOffset.getD (hr.evCount - 1) 0 + hr.azCount.getD (hr.evCount - 1) 0 ≤ hr.irCount ∧
    (∀ e a, e < hr.evCount → a < hr.azCount.getD e 0 →
      hr.evOffset.getD e 0 + a < hr.irCount ∧
      hr.evOffset.getD e 0 + (hr.azCount.getD e 0 - a) % hr.azCount.getD e 0 < hr.irCount) ∧
    hr.coeffs.length = hr.irCount * hr.irSize ∧
    hr.delays.length = hr.irCount ∧
    (∀ idx j, idx < hr.irCount → j < hr.irSize →
      idx * hr.irSize + j < hr.coeffs.length) := by
  have hcoeff : hr.coeffs.length = hr.irCount * hr.irSize →
      ∀ idx j, idx < hr.irCount → j < hr.irSize →
        idx * hr.irSize + j < hr.coeffs.length := by
    intro hclen idx j hidx hj
    rw [hclen]
    have hexp : (idx + 1) * hr.irSize = idx * hr.irSize + hr.irSize := by ring
    have hle : (idx + 1) * hr.irSize ≤ hr.irCount * hr.irSize :=
      Nat.mul_le_mul_right _ (by omega)
    omega
  rcases hok with hok | hok
  · obtain ⟨hazok, hofflen, hclen, hdlen, hev, _, _⟩ := LoadHrtf00_ok_inv hok
    obtain ⟨hazlen, hmid, hlast, hmem⟩ := mkAzCounts00_spec _ _ _ hazok
    have hchain := mkAzCounts00_chain _ _ _ hazok
    have hevpos : 0 < hr.evCount := by
      rw [evCountOutOfBounds] at hev
      push_neg at hev
      have := hev.1
      rw [MIN_EV_COUNT] at this
      omega
    refine ⟨?_, ?_, ?_, hclen, hdlen, hcoeff hclen⟩
    · intro i hi
      obtain ⟨hlt, heq⟩ := hmid i (by omega)
      have := Nat.mod_le (hr.evOffset.getD (i+1) 0 - hr.evOffset.getD i 0) 256
      omega
    · exact hchain (hr.evCount - 1) (by omega)
    · intro e a he ha
      have hch := hchain e (by omega)
      have hmir : (hr.azCount.getD e 0 - a) % hr.azCount.getD e 0 < hr.azCount.getD e 0 :=
        Nat.mod_lt _ (by omega)
      omega
  · obtain ⟨hoff, hsum, hazlen, hclen, hdlen, hev, _, hazmem, _⟩ := LoadHrtf01_ok_inv hok
    have hevpos : 0 < hr.evCount := by
      rw [evCountOutOfBounds] at hev
      push_neg at hev
      have := hev.1
      rw [MIN_EV_COUNT] at this
      omega
    have hoffgetD : ∀ i, i < hr.azCount.length →
        hr.evOffset.getD i 0 = (hr.azCount.take i).sum := by
      intro i hi
      rw [hoff, mkEvOffsets_getD _ i hi]
    refine ⟨?_, ?_, ?_, hclen, hdlen, hcoeff hclen⟩
    · intro i hi
      rw [hoffgetD i (by omega), hoffgetD (i+1) (by omega),
        sum_take_succ_getD _ i (by omega)]
    · rw [hoffgetD (hr.evCount - 1) (by omega), hsum]
      have hs := sum_take_succ_getD hr.azCount (hr.evCount - 1) (by omega)
      have ht : hr.evCount - 1 + 1 = hr.azCount.length := by omega
      rw [ht, List.take_length] at hs
      omega
    · intro e a he ha
      have hsucc := sum_take_succ_getD hr.azCount e (by omega)
      have hle := sum_take_le hr.azCount (e + 1)
      have hoffe := hoffgetD e (by omega)
      have hmir : (hr.azCount.getD e 0 - a) % hr.azCount.getD e 0 < hr.azCount.getD e 0 :=
        Nat.mod_lt _ (by omega)
      rw [hsum]
      omega

/-- C4: for buffers long enough to carry the header, a declared irSize of
7, 9 or 129 makes either decoder fail with the out-of-range error
(regardless of the rest of the buffer), while 8, 16 and 128 pass the
shared irSize bounds check `irSize < 8 || irSize > 128 || irSize % 8`. -/
theorem claim_C4_irSize_gate :
    (∀ data : List ℕ, 9 ≤ data.length →
      (irSize00 data = 7 ∨ irSize00 data = 9 ∨ irSize00 data = 129) →
      LoadHrtf00 data = .error .outOfRange) ∧
    (∀ data : List ℕ, 6 ≤ data.length →
      (irSize01 data = 7 ∨ irSize01 data = 9 ∨ irSize01 data = 129) →
      LoadHrtf01 data = .error .outOfRange) ∧
    irSizeOutOfBounds 7 ∧ irSizeOutOfBounds 9 ∧ irSizeOutOfBounds 129 ∧
    ¬ irSizeOutOfBounds 8 ∧ ¬ irSizeOutOfBounds 16 ∧ ¬ irSizeOutOfBounds 128 := by
  refine ⟨?_, ?_, by decide, by decide, by decide, by decide, by decide, by decide⟩
  · intro data h9 hs
    obtain ⟨a0, a1, a2, a3, a4, a5, a6, a7, a8, t, rfl⟩ := exists_cons9 data h9
    have hsz : irSize00 (a0 :: a1 :: a2 :: a3 :: a4 :: a5 :: a6 :: a7 :: a8 :: t)
        = a6 + a7 * 256 := by
      simp [irSize00]
    rw [hsz] at hs
    have hbad : irSizeOutOfBounds (a6 + a7 * 256) := by
      rcases hs with hs | hs | hs <;> rw [hs] <;> decide
    simp only [LoadHrtf00.eq_def]
    rw [if_neg (by omega), if_pos (Or.inl hbad)]
  · intro data h6 hs
    obtain ⟨a0, a1, a2, a3, a4, a5, t, rfl⟩ := exists_cons6 data h6
    have hsz : irSize01 (a0 :: a1 :: a2 :: a3 :: a4 :: a5 :: t) = a4 := by
      simp [irSize01]
    rw [hsz] at hs
    have hbad : irSizeOutOfBounds a4 := by
      rcases hs with hs | hs | hs <;> rw [hs] <;> decide
    simp only [LoadHrtf01.eq_def]
    rw [if_neg (by omega), if_pos (Or.inl hbad)]

/-- A 9-byte v0 buffer whose header declares irSize 7 and evCount 5: the
buffer ends before the required evOffset table, yet the decoder reports
the out-of-range header error, not the truncation error. -/
def bufC5 : List ℕ := [0,0,0,0, 0,0, 7,0, 5]

/-- C5, the claim as stated is false: a buffer that ends before a table its
declared header requires need not produce the truncation error — when a
header field is also out of range, the decoder returns the out-of-range
error instead (header validation precedes the table length check). -/
theorem claim_C5_counterexample :
    ¬ (∀ data : List ℕ, 9 ≤ data.length → data.length < 9 + 2 * evCount00 data →
        LoadHrtf00 data = .error .truncated) := by
  intro hcl
  have hc := hcl bufC5 (by decide) (by decide)
  exact absurd hc (by decide)

/-- C5 (amended): neither decoder ever reads a byte at or beyond the
buffer length (no result is the out-of-bounds marker), and a buffer that
ends before a required field or table yields the truncation error provided
the already-parsed header fields pass their bounds checks: truncation of
the fixed header always reports truncation; truncation inside the
evOffset/azCount table or the coefficient+delay table reports truncation
when the declared irSize and evCount (and, for the coefficient table, the
offset/azimuth-count validation) are acceptable. -/
theorem claim_C5_truncation_safety :
    (∀ data : List ℕ, LoadHrtf00 data ≠ .error .oobRead) ∧
    (∀ data : List ℕ, LoadHrtf01 data ≠ .error .oobRead) ∧
    (∀ data : List ℕ, data.length < 9 → LoadHrtf00 data = .error .truncated) ∧
    (∀ data : List ℕ, data.length < 6 → LoadHrtf01 data = .error .truncated) ∧
    (∀ data : List ℕ, 9 ≤ data.length → ¬ irSizeOutOfBounds (irSize00 data) →
      ¬ evCountOutOfBounds (evCount00 data) → data.length < 9 + 2 * evCount00 data →
      LoadHrtf00 data = .error .truncated) ∧
    (∀ data : List ℕ, 6 ≤ data.length → ¬ irSizeOutOfBounds (irSize01 data) →
      ¬ evCountOutOfBounds (evCount01 data) → data.length < 6 + evCount01 data →
      LoadHrtf01 data = .error .truncated) ∧
    (∀ (data : List ℕ) (az : List ℕ), 9 ≤ data.length →
      ¬ irSizeOutOfBounds (irSize00 data) → ¬ evCountOutOfBounds (evCount00 data) →
      9 + 2 * evCount00 data ≤ data.length →
      mkAzCounts00 (irCount00 data) (offsets00 data) = .ok az →
      data.length < 9 + 2 * evCount00 data +
        (2 * irSize00 data * irCount00 data + irCount00 data) →
      LoadHrtf00 data = .error .truncated) ∧
    (∀ data : List ℕ, 6 ≤ data.length →
      ¬ irSizeOutOfBounds (irSize01 data) → ¬ evCountOutOfBounds (evCount01 data) →
      6 + evCount01 data ≤ data.length →
      (∀ a ∈ azTable01 data, MIN_AZ_COUNT ≤ a ∧ a ≤ MAX_AZ_COUNT) →
      data.length < 6 + evCount01 data +
        (2 * irSize01 data * irCount01 data + irCount01 data) →
      LoadHrtf01 data = .error .truncated) :=
  ⟨LoadHrtf00_ne_oob, LoadHrtf01_ne_oob,
   fun _ h => LoadHrtf00_trunc_header h,
   fun _ h => LoadHrtf01_trunc_header h,
   fun _ h9 hs he hl => LoadHrtf00_trunc_offsets h9 hs he hl,
   fun _ h6 hs he hl => LoadHrtf01_trunc_aztable h6 hs he hl,
   fun _ az h9 hs he hofs haz hl => LoadHrtf00_trunc_coeffs h9 hs he hofs haz hl,
   fun _ h6 hs he hofs haz hl => LoadHrtf01_trunc_coeffs h6 hs he hofs haz hl⟩

/-! ### Witnesses -/

/-- Witness for C2: the v1 buffer `bufW` decodes successfully and its
dataset has `evOffset[0] = 0`. -/
theorem claim_C2_witness :
    LoadHrtf01 bufW = .ok hrtfW ∧ hrtfW.evOffset.getD 0 0 = 0 :=
  ⟨decode_bufW, claim_C2_v1_evOffset_zero bufW hrtfW decode_bufW⟩

/-- Witness for C3 at azCount 1 and azimuth 0. -/
theorem claim_C3_witness :
    ((1:ℕ) ≤ 1 ∧ (1:ℕ) ≤ 128 ∧ (0:ℝ) ≤ 2*π + 0) ∧
    (CalcAzIndices 1 0).1 < 1 ∧ (CalcAzIndices 1 0).2.1 < 1 :=
  ⟨⟨le_refl 1, by norm_num, by positivity⟩,
   (claim_C3_azimuth_indices 1 0 (le_refl 1) (by norm_num) (by positivity)).2.2.1,
   (claim_C3_azimuth_indices 1 0 (le_refl 1) (by norm_num) (by positivity)).2.2.2.1⟩

/-- Witness for C4: a 9-byte v0 buffer with declared irSize 9. -/
theorem claim_C4_witness :
    (9:ℕ) ≤ ([0,0,0,0, 0,0, 9,0, 5] : List ℕ).length ∧
    irSize00 [0,0,0,0, 0,0, 9,0, 5] = 9 ∧
    LoadHrtf00 [0,0,0,0, 0,0, 9,0, 5] = .error .outOfRange :=
  ⟨by decide, by decide,
   claim_C4_irSize_gate.1 [0,0,0,0, 0,0, 9,0, 5] (by decide) (Or.inr (Or.inl (by decide)))⟩

/-- Witness for C5: the empty buffer is reported as truncated, and the
decoder applied to the large accepted buffer performs no out-of-bounds
read. -/
theorem claim_C5_witness :
    ([] : List ℕ).length < 9 ∧
    LoadHrtf00 ([] : List ℕ) = .error .truncated ∧
    LoadHrtf00 bufB1 ≠ .error .oobRead :=
  ⟨by decide, claim_C5_truncation_safety.2.2.1 [] (by decide),
   claim_C5_truncation_safety.1 bufB1⟩

/-- Witness for C6: gain 0.00005 (below the threshold) zeroes all
coefficient pairs of `hrtfW` at direction (0, 0), spread 0. -/
theorem claim_C6_witness :
    (0.00005 : ℝ) ≤ 0.0001 ∧
    (GetLerpedHrtfCoeffs hrtfW 0 0 0 0.00005).coeffs
      = List.replicate hrtfW.irSize ((0:ℝ), (0:ℝ)) :=
  ⟨by norm_num, claim_C6_gain_gate hrtfW 0 0 0 0.00005 (by norm_num)⟩

/-- Witness for C7 at azimuth 0. -/
theorem claim_C7_witness :
    (0:ℝ) ≤ 2*π + 0 ∧
    GetLerpedHrtfCoeffs hrtfW 0 (0 + 2*π) 0 1 = GetLerpedHrtfCoeffs hrtfW 0 0 0 1 :=
  ⟨by positivity, claim_C7_azimuth_periodicity hrtfW 0 0 0 1 (by positivity)⟩

lemma hrtfW_delays_getD (i : ℕ) : hrtfW.delays.getD i 0 = 0 := by
  rw [show hrtfW.delays = List.replicate 5 0 from rfl, getD_replicate_self]

/-- Witness for C8: `hrtfW` has all delays 0, so every contribution starts
at offset 0 and the effective length equals irSize = 8. -/
theorem claim_C8_witness :
    ((∀ c < 8, hrtfW.delays.getD (BFLeftIdx hrtfW c) 0 = 0 ∧
        hrtfW.delays.getD (BFRightIdx hrtfW c) 0 = 0) ∧
      (0:ℕ) < HRTF_HISTORY_LENGTH ∧ hrtfW.irSize ≤ HRIR_LENGTH) ∧
    (BuildBFormatHrtf hrtfW).2 = hrtfW.irSize :=
  ⟨⟨fun c _ => ⟨hrtfW_delays_getD _, hrtfW_delays_getD _⟩, by decide, by decide⟩,
   (claim_C8_bformat_alignment hrtfW 0
     (fun c hc => ⟨hrtfW_delays_getD _, hrtfW_delays_getD _⟩)
     (by decide) (by decide)).2⟩

/-- Witness for C9: the decoded `hrtfW` satisfies the amended invariant;
shown here for the final-ring inequality. -/
theorem claim_C9_witness :
    LoadHrtf01 bufW = .ok hrtfW ∧
    hrtfW.evOffset.getD (hrtfW.evCount - 1) 0 +
      hrtfW.azCount.getD (hrtfW.evCount - 1) 0 ≤ hrtfW.irCount :=
  ⟨decode_bufW, (claim_C9_index_bounds bufW hrtfW (Or.inr decode_bufW)).2.1⟩

lemma hrtfW_delays_le : ∀ x ∈ hrtfW.delays, x ≤ maxDelay := by
  intro x hx
  rw [show hrtfW.delays = List.replicate 5 0 from rfl] at hx
  rw [List.eq_of_mem_replicate hx]
  decide

/-- Witness for C10 at direction (0,0), spread 0, gain 1 on `hrtfW`. -/
theorem claim_C10_witness :
    ((∀ x ∈ hrtfW.delays, x ≤ maxDelay) ∧ -(π/2) ≤ (0:ℝ) ∧ (0:ℝ) ≤ 0 ∧ (0:ℝ) ≤ 2*π) ∧
    (∃ dl dr : ℕ, dl ≤ maxDelay ∧ dr ≤ maxDelay ∧
      (GetLerpedHrtfCoeffs hrtfW 0 0 0 1).delays
        = (dl <<< HRTFDELAY_BITS, dr <<< HRTFDELAY_BITS)) :=
  ⟨⟨hrtfW_delays_le, by linarith [pi_pos], le_refl 0, by positivity⟩,
   claim_C10_delay_encoding hrtfW 0 0 0 1 hrtfW_delays_le
     (by linarith [pi_pos]) (le_refl 0) (by positivity)⟩
